import Mathlib

/-!
# Record reader of `torvald/journal` (`record/record.go`)

A shallow embedding of `record.go` and of the parts of the Go standard
library it calls (`strings.Replacer`, `strconv.ParseInt`,
`strconv.FormatInt`, `time.Parse`, `encoding/csv`), followed by the
properties of the reader that are proved about it.

Text is a list of characters.  Every character the program inspects
(`;`, `"`, `.`, `,`, the sign characters, line ends and the decimal
digits) is ASCII, so a position holds such a character exactly when the
byte at that position of the UTF-8 encoding does.

Go functions that return a pair `(value, error)` are pairs here, with
`none` for the `nil` error; a `nil` slice is the empty list.
-/

namespace Journal

/-! ## Text -/

/-- Text: the characters of a Go `string`. -/
abbrev Str := List Char

/-- Decimal digit test: `'0' <= c && c <= '9'`. -/
def isDigit (c : Char) : Bool := decide (48 ≤ c.toNat) && decide (c.toNat ≤ 57)

/-- Value of a decimal digit: `c - '0'`. -/
def digitVal (c : Char) : Nat := c.toNat - 48

/-- The constants `decimalSeparator` and `thousandSeparator` of `record.go`. -/
def decimalSeparator : Char := '.'

/-- The constant `thousandSeparator` of `record.go`. -/
def thousandSeparator : Char := ','

/-! ## `strings.Replacer` -/

/-- A `strings.Replacer` whose old strings are all single characters:
`pairs` lists each old character with its replacement text. -/
structure Replacer where
  pairs : List (Char × Str)

/-- Replacement of one character: the text paired with the first
matching old character, the character itself when none matches. -/
def Replacer.lookup : List (Char × Str) → Char → Str
  | [], c => [c]
  | (o, n) :: ps, c => if c = o then n else Replacer.lookup ps c

/-- `Replacer.Replace`: every character is replaced independently, left to
right. -/
def Replacer.Replace (r : Replacer) : Str → Str
  | [] => []
  | c :: cs => Replacer.lookup r.pairs c ++ Replacer.Replace r cs

/-! ## `strconv` -/

/-- The `Err` of a `strconv.NumError`: `ErrSyntax` or `ErrRange`. -/
inductive NumErr where
  | invalid
  | outOfRange
  deriving DecidableEq, Repr

/-- The largest `uint64`. -/
def maxUint64 : Nat := 2 ^ 64 - 1

/-- The loop of `strconv.ParseUint(s, 10, 64)` over the characters of `s`,
with `n` the value accumulated so far (a `uint64`).  `cutoff` is
`maxUint64/10 + 1`; the addition `n*10 + d` is taken modulo `2^64` and
its overflow detected by `n1 < n`, as in Go. -/
def parseUintLoop : Str → Nat → Nat × Option NumErr
  | [], n => (n, none)
  | c :: cs, n =>
    if isDigit c then
      if n ≥ maxUint64 / 10 + 1 then (maxUint64, some NumErr.outOfRange)
      else
        let m := n * 10
        let n1 := (m + digitVal c) % 2 ^ 64
        if n1 < m ∨ n1 > maxUint64 then (maxUint64, some NumErr.outOfRange)
        else parseUintLoop cs n1
    else (0, some NumErr.invalid)

/-- `strconv.ParseUint(s, 10, 64)`. -/
def ParseUint (s : Str) : Nat × Option NumErr :=
  match s with
  | [] => (0, some NumErr.invalid)
  | _ => parseUintLoop s 0

/-- Conversion `int64(un)` of a `uint64`. -/
def int64OfUint64 (un : Nat) : Int :=
  if un < 2 ^ 63 then (un : Int) else (un : Int) - 2 ^ 64

/-- Negation `-n` of an `int64`, wrapping at `-2^63`. -/
def negInt64 (n : Int) : Int :=
  if n = -(2 ^ 63) then n else -n

/-- The part of `strconv.ParseInt(s, 10, 64)` after the sign has been picked
off: `neg` tells whether the sign was `-`, `s` is the rest. -/
def parseIntBody (neg : Bool) (s : Str) : Int × Option NumErr :=
  match ParseUint s with
  | (_, some NumErr.invalid) => (0, some NumErr.invalid)
  | (un, _) =>
    if !neg && decide (un ≥ 2 ^ 63) then (2 ^ 63 - 1, some NumErr.outOfRange)
    else if neg && decide (un > 2 ^ 63) then (-(2 ^ 63), some NumErr.outOfRange)
    else
      let n := int64OfUint64 un
      (if neg then negInt64 n else n, none)

/-- `strconv.ParseInt(s, 10, 64)`. -/
def ParseInt (s : Str) : Int × Option NumErr :=
  match s with
  | [] => (0, some NumErr.invalid)
  | c :: cs =>
    if c = '+' then parseIntBody false cs
    else if c = '-' then parseIntBody true cs
    else parseIntBody false (c :: cs)

/-- The loop of `strconv.FormatInt` for base 10: the digits of `u` are put
in front of `acc`, least significant first.  `fuel` bounds the number of
digits. -/
def formatBits : Nat → Nat → Str → Str
  | 0, _, acc => acc
  | fuel + 1, u, acc =>
    if u < 10 then Char.ofNat (u + 48) :: acc
    else formatBits fuel (u / 10) (Char.ofNat (u % 10 + 48) :: acc)

/-- `strconv.FormatInt(i, 10)`. -/
def FormatInt (i : Int) : Str :=
  if i < 0 then '-' :: formatBits (i.natAbs + 1) i.natAbs []
  else formatBits (i.natAbs + 1) i.natAbs []

/-! ## `time` -/

/-- A `time.Time` in UTC, by its calendar date and its time of day. -/
structure Time where
  year : Nat
  month : Nat
  day : Nat
  hour : Nat
  minute : Nat
  second : Nat
  nanosecond : Nat
  deriving DecidableEq, Repr

/-- The zero value `time.Time{}`: January 1, year 1, 00:00:00 UTC. -/
def Time.zero : Time := ⟨1, 1, 1, 0, 0, 0, 0⟩

/-- `time.Date(year, month, day, 0, 0, 0, 0, time.UTC)` for a date that needs
no normalisation. -/
def Date (year month day : Nat) : Time := ⟨year, month, day, 0, 0, 0, 0⟩

/-- What a failed `time.Parse` complains about: the value does not match
the layout, the month or the day is out of range, or text is left over. -/
inductive TimeErr where
  | bad
  | monthRange
  | dayRange
  | extraText
  deriving DecidableEq, Repr

/-- `isLeap` of package `time`. -/
def isLeap (year : Nat) : Bool :=
  year % 4 == 0 && (year % 100 != 0 || year % 400 == 0)

/-- The table `daysBefore` of package `time`: the days of a non-leap year
before the end of month `m`. -/
def daysBefore : Nat → Nat
  | 0 => 0
  | 1 => 31
  | 2 => 59
  | 3 => 90
  | 4 => 120
  | 5 => 151
  | 6 => 181
  | 7 => 212
  | 8 => 243
  | 9 => 273
  | 10 => 304
  | 11 => 334
  | _ => 365

/-- `daysIn` of package `time`. -/
def daysIn (m year : Nat) : Nat :=
  if m = 2 ∧ isLeap year = true then 29 else daysBefore m - daysBefore (m - 1)

/-- `getnum(s, true)` of package `time`: exactly two digits. -/
def getnum2 : Str → Option (Nat × Str)
  | c0 :: c1 :: rest =>
    if isDigit c0 && isDigit c1 then some (digitVal c0 * 10 + digitVal c1, rest) else none
  | _ => none

/-- `skip(value, ".")` of package `time`. -/
def skipDot : Str → Option Str
  | c :: rest => if c = '.' then some rest else none
  | [] => none

/-- The `stdLongYear` case of `time.Parse`: four characters, the first a
digit, read by `atoi`, which wants all four to be digits. -/
def getYear : Str → Option (Nat × Str)
  | c0 :: c1 :: c2 :: c3 :: rest =>
    if isDigit c0 && isDigit c1 && isDigit c2 && isDigit c3 then
      some (((digitVal c0 * 10 + digitVal c1) * 10 + digitVal c2) * 10 + digitVal c3, rest)
    else none
  | _ => none

/-- `time.Parse("02.01.2006", value)`: a two-digit day, `.`, a two-digit
month (checked to be 1..12 as soon as it is read), `.`, a four-digit year,
nothing after it; the day is checked against the month last. -/
def timeParse (value : Str) : Time × Option TimeErr :=
  match getnum2 value with
  | none => (Time.zero, some TimeErr.bad)
  | some (day, v1) =>
    match skipDot v1 with
    | none => (Time.zero, some TimeErr.bad)
    | some v2 =>
      match getnum2 v2 with
      | none => (Time.zero, some TimeErr.bad)
      | some (month, v3) =>
        if month ≤ 0 ∨ 12 < month then (Time.zero, some TimeErr.monthRange)
        else
          match skipDot v3 with
          | none => (Time.zero, some TimeErr.bad)
          | some v4 =>
            match getYear v4 with
            | none => (Time.zero, some TimeErr.bad)
            | some (year, v5) =>
              if v5 ≠ [] then (Time.zero, some TimeErr.extraText)
              else if day < 1 ∨ day > daysIn month year then (Time.zero, some TimeErr.dayRange)
              else (Date year month day, none)

/-- `appendInt(b, x, width)` of package `time` for `x >= 0`: the decimal
digits of `x`, padded with zeros on the left to `width`. -/
def appendInt (x width : Nat) : Str :=
  let ds := formatBits (x + 1) x []
  List.replicate (width - ds.length) '0' ++ ds

/-- `t.Format("2006-01-02")`. -/
def Time.Format (t : Time) : Str :=
  appendInt t.year 4 ++ ['-'] ++ appendInt t.month 2 ++ ['-'] ++ appendInt t.day 2

/-! ## `encoding/csv` -/

/-- The input of the reader: the bytes the `io.Reader` delivers, and whether
it ends with a read fault instead of `io.EOF`. -/
structure Input where
  data : Str
  fault : Bool

/-- Errors of a `csv.Reader`: a `csv.ParseError` with `Err` `ErrBareQuote`,
`ErrQuote` or `ErrFieldCount`, and the error of the underlying `io.Reader`.
The error of the field count carries its `Line`, the line of the input on
which the record starts; its message is `record on line <Line>: wrong number
of fields`.  The line and the column of the other two, which count bytes,
are not modelled. -/
inductive CsvErr where
  | bareQuote
  | quote
  | fieldCount (line : Nat)
  | readFault
  deriving DecidableEq, Repr

/-- What `readRecord` makes of one record of the input, before the count of
its fields is checked: its fields, or an error. -/
inductive Lexed where
  | row (fields : List Str)
  | fail (e : CsvErr)
  deriving DecidableEq, Repr

/-- The lines as `csv.Reader.readLine` delivers them, put end to end: a
`\r\n` that ends a line becomes `\n`, and a `\r` that ends the input is
dropped when the input ends with `io.EOF`. -/
def readLines (fault : Bool) : Str → Str
  | [] => []
  | c :: cs =>
    if c = '\r' then
      match cs with
      | [] => if fault then ['\r'] else []
      | d :: _ => if d = '\n' then readLines fault cs else '\r' :: readLines fault cs
    else c :: readLines fault cs

/-- Where `readRecord` stands in the input: before a record (at the start of
a line), at the start of a field, inside a field without quotes, inside a
quoted field, or just after a quote met inside a quoted field. -/
inductive Mode where
  | lineStart
  | fieldStart
  | unquoted
  | quoted
  | afterQuote
  deriving DecidableEq, Repr

/-- The record that ends with the input: `readRecord` returns it with the
error of the last `readLine`, which is `nil` unless the input ends with a
fault. -/
def atEnd (fault : Bool) (fields : List Str) : Lexed :=
  if fault then Lexed.fail CsvErr.readFault else Lexed.row fields

/-- The results of the successive calls of `readRecord` on the lines of
`readLines`, up to `io.EOF` or the first error, for a reader with `Comma`
`;` and no `Comment`, `LazyQuotes` or `TrimLeadingSpace`, each with the
number of the line on which the record starts (`recLine`).  `line` is the
number of the current line (`numLine`), `start` the line on which the
current record started, `row` holds the fields of the current record that
are complete and `acc` the characters of the current field.

* before a record, empty lines are skipped;
* a field that does not start with a quote runs to the next `;` or to the
  end of the line, and must not hold a quote (`ErrBareQuote`);
* a quoted field runs to the quote that closes it, line ends included; a
  doubled quote stands for a quote, and after the closing quote comes `;`
  or the end of the line (`ErrQuote` otherwise, and when the input ends
  inside the field). -/
def lexRecords (fault : Bool) : Str → Mode → Nat → Nat → List Str → Str → List (Nat × Lexed)
  | [], Mode.lineStart, line, _, _, _ =>
    if fault then [(line, Lexed.fail CsvErr.readFault)] else []
  | [], Mode.fieldStart, _, start, row, _ => [(start, atEnd fault (row ++ [[]]))]
  | [], Mode.unquoted, _, start, row, acc => [(start, atEnd fault (row ++ [acc]))]
  | [], Mode.quoted, _, start, _, _ =>
    [(start, Lexed.fail (if fault then CsvErr.readFault else CsvErr.quote))]
  | [], Mode.afterQuote, _, start, row, acc => [(start, atEnd fault (row ++ [acc]))]
  | c :: cs, Mode.lineStart, line, _, _, _ =>
    if c = '\n' then lexRecords fault cs Mode.lineStart (line + 1) (line + 1) [] []
    else if c = '"' then lexRecords fault cs Mode.quoted line line [] []
    else if c = ';' then lexRecords fault cs Mode.fieldStart line line [[]] []
    else lexRecords fault cs Mode.unquoted line line [] [c]
  | c :: cs, Mode.fieldStart, line, start, row, _ =>
    if c = '"' then lexRecords fault cs Mode.quoted line start row []
    else if c = ';' then lexRecords fault cs Mode.fieldStart line start (row ++ [[]]) []
    else if c = '\n' then
      (start, Lexed.row (row ++ [[]])) ::
        lexRecords fault cs Mode.lineStart (line + 1) (line + 1) [] []
    else lexRecords fault cs Mode.unquoted line start row [c]
  | c :: cs, Mode.unquoted, line, start, row, acc =>
    if c = ';' then lexRecords fault cs Mode.fieldStart line start (row ++ [acc]) []
    else if c = '\n' then
      (start, Lexed.row (row ++ [acc])) ::
        lexRecords fault cs Mode.lineStart (line + 1) (line + 1) [] []
    else if c = '"' then [(start, Lexed.fail CsvErr.bareQuote)]
    else lexRecords fault cs Mode.unquoted line start row (acc ++ [c])
  | c :: cs, Mode.quoted, line, start, row, acc =>
    if c = '"' then lexRecords fault cs Mode.afterQuote line start row acc
    else if c = '\n' then lexRecords fault cs Mode.quoted (line + 1) start row (acc ++ [c])
    else lexRecords fault cs Mode.quoted line start row (acc ++ [c])
  | c :: cs, Mode.afterQuote, line, start, row, acc =>
    if c = '"' then lexRecords fault cs Mode.quoted line start row (acc ++ ['"'])
    else if c = ';' then lexRecords fault cs Mode.fieldStart line start (row ++ [acc]) []
    else if c = '\n' then
      (start, Lexed.row (row ++ [acc])) ::
        lexRecords fault cs Mode.lineStart (line + 1) (line + 1) [] []
    else [(start, Lexed.fail CsvErr.quote)]

/-- What a `csv.Reader` on `rd` has to deliver, one item for each call of
`readRecord`: the line on which the record starts, and the record or the
error.  Lines are counted from 1. -/
def csvLexed (rd : Input) : List (Nat × Lexed) :=
  lexRecords rd.fault (readLines rd.fault rd.data) Mode.lineStart 1 1 [] []

/-- The records a `csv.Reader` on `rd` has to deliver, one for each call of
`readRecord`. -/
def csvRecords (rd : Input) : List Lexed :=
  (csvLexed rd).map Prod.snd

/-- The line of the input on which each record of `csvLexed` starts. -/
def recordLines (rd : Input) : List Nat := (csvLexed rd).map Prod.fst

/-- The end of `readRecord`: the check of the number of fields against
`FieldsPerRecord`.  A positive `fieldsPerRecord` is the number every record
must have; zero makes the number of fields of this record the one
required from then on.  `recLine` is the line on which the record starts.
Returns the record or the error, and the new `FieldsPerRecord`. -/
def checkFields (recLine : Nat) (fieldsPerRecord : Int) : Lexed → Lexed × Int
  | Lexed.fail e => (Lexed.fail e, fieldsPerRecord)
  | Lexed.row fields =>
    if fieldsPerRecord > 0 then
      if (fields.length : Int) ≠ fieldsPerRecord then
        (Lexed.fail (CsvErr.fieldCount recLine), fieldsPerRecord)
      else (Lexed.row fields, fieldsPerRecord)
    else if fieldsPerRecord = 0 then (Lexed.row fields, (fields.length : Int))
    else (Lexed.row fields, fieldsPerRecord)

/-! ## `record.go` -/

/-- The record of a transaction: `type Record struct`. -/
structure Record where
  Time : Time
  Text : Str
  Amount : Int
  deriving DecidableEq, Repr

/-- `Record.StringAmount`: the numeral of `Amount` with `","` put in at
`off := len(s) - 2`.  The slices `s[:off]` and `s[off:]` panic when `off`
is negative: there is no result then. -/
def Record.StringAmount (r : Record) : Option Str :=
  let s := FormatInt r.Amount
  let off : Int := (s.length : Int) - 2
  if off < 0 then none
  else some (s.take off.toNat ++ [','] ++ s.drop off.toNat)

/-- `Record.String`: date, text and amount joined by tabs. -/
def Record.String (r : Record) : Option Str :=
  match r.StringAmount with
  | none => none
  | some a => some (r.Time.Format ++ ['\t'] ++ r.Text ++ ['\t'] ++ a)

/-- The reader: `type defaultReader struct`. -/
structure defaultReader where
  rd : Input
  replacer : Replacer

/-- `NewReader`: the replacer deletes both separators. -/
def NewReader (rd : Input) : defaultReader :=
  { rd := rd, replacer := ⟨[(decimalSeparator, []), (thousandSeparator, [])]⟩ }

/-- `defaultReader.parseAmount`. -/
def defaultReader.parseAmount (d : defaultReader) (s : Str) : Int × Option NumErr :=
  let v := d.replacer.Replace s
  match ParseInt v with
  | (_, some err) => (0, some err)
  | (n, none) => (n, none)

/-- The errors `Read` returns: the error of the `csv.Reader` as it is, or
the error of `time.Parse` or of `parseAmount` wrapped by `errors.Wrapf`
with the arguments of its format, the line counter and the text of the
field (`"invalid time found on line %d: %q"`,
`"invalid amount found on line %d: %q"`). -/
inductive ReadError where
  | csv (e : CsvErr)
  | invalidTime (line : Nat) (text : Str) (cause : TimeErr)
  | invalidAmount (line : Nat) (text : Str) (cause : NumErr)
  deriving DecidableEq, Repr

/-- The loop of `defaultReader.Read`.  `pending` and `fieldsPerRecord` are
the state of the `csv.Reader` `c`, `rs` and `line` the variables of the
same names.  Each step is one `c.Read()`; the end of `pending` is
`io.EOF`. -/
def defaultReader.readLoop (r : defaultReader) :
    List (Nat × Lexed) → Int → List Record → Nat → List Record × Option ReadError
  | [], _, rs, _ => (rs, none)
  | (recLine, l) :: pending, fieldsPerRecord, rs, line =>
    match checkFields recLine fieldsPerRecord l with
    | (Lexed.fail err, _) => ([], some (ReadError.csv err))
    | (Lexed.row record, fieldsPerRecord) =>
      let line := line + 1
      if record.length < 4 then r.readLoop pending fieldsPerRecord rs line
      else
        match timeParse (record.getD 0 []) with
        | (_, some err) => ([], some (ReadError.invalidTime line (record.getD 0 []) err))
        | (t, none) =>
          let text := record.getD 2 []
          match r.parseAmount (record.getD 3 []) with
          | (_, some err) =>
            ([], some (ReadError.invalidAmount line (record.getD 3 []) err))
          | (amount, none) =>
            r.readLoop pending fieldsPerRecord
              (rs ++ [{ Time := t, Text := text, Amount := amount }]) line

/-- `defaultReader.Read`: a new `csv.Reader` on `r.rd` with `Comma` `;`
and `FieldsPerRecord` left at zero, then the loop. -/
def defaultReader.Read (r : defaultReader) : List Record × Option ReadError :=
  r.readLoop (csvLexed r.rd) 0 [] 0

/-- The input that holds the text `s` and ends with `io.EOF`. -/
def Input.ofString (s : String) : Input := ⟨s.toList, false⟩

/-! ## Vocabulary of the specification

The definitions below are not taken from the code: they say what the
specification means by a numeral, by a well-formed amount, by a valid
date and by a well-formed row, so that the code can be compared with
them. -/

/-- Separator stripping, in the words of the specification: every `.` and
every `,` is deleted. -/
def stripSeparators (s : Str) : Str := s.filter (fun c => c != '.' && c != ',')

/-- The number the digits `ds` spell in base 10 when `n` is the number spelled
by the digits before them. -/
def digitsVal (n : Nat) (ds : Str) : Nat := ds.foldl (fun k c => k * 10 + digitVal c) n

/-- A numeral without its one optional leading sign. -/
def numeralBody : Str → Str
  | [] => []
  | c :: cs => if c = '+' ∨ c = '-' then cs else c :: cs

/-- Whether the leading sign of a numeral is `-`. -/
def numeralNeg : Str → Bool
  | [] => false
  | c :: _ => decide (c = '-')

/-- The integer a signed numeral spells. -/
def numeralValue (t : Str) : Int :=
  if numeralNeg t then -(digitsVal 0 (numeralBody t) : Int) else (digitsVal 0 (numeralBody t) : Int)

/-- A base-10 signed 64-bit integer numeral: after one optional sign, at
least one character, decimal digits only, and a value in `-2^63 .. 2^63-1`. -/
def IsInt64Numeral (t : Str) : Prop :=
  numeralBody t ≠ [] ∧ (∀ c ∈ numeralBody t, isDigit c = true) ∧
    -(2 ^ 63) ≤ numeralValue t ∧ numeralValue t ≤ 2 ^ 63 - 1

/-- Groups of digits written with the thousands separator between them. -/
def grouped : List Str → Str
  | [] => []
  | g :: gs =>
    match gs with
    | [] => g
    | _ :: _ => g ++ thousandSeparator :: grouped gs

/-- The digits of the groups, without separators. -/
def ungrouped : List Str → Str
  | [] => []
  | g :: gs => g ++ ungrouped gs

/-- A well-formed amount text: an optional `-`, the digits of the integer
part in `groups` (one group when no thousands separator is used), the
decimal separator, and the two fractional digits `d1`, `d2`. -/
def amountText (neg : Bool) (groups : List Str) (d1 d2 : Char) : Str :=
  (if neg then ['-'] else []) ++ grouped groups ++ [decimalSeparator, d1, d2]

/-- The decimal value of a well-formed amount text. -/
def decimalValue (neg : Bool) (groups : List Str) (d1 d2 : Char) : ℚ :=
  (if neg then -1 else 1) *
    ((digitsVal 0 (ungrouped groups) : ℚ) + ((digitVal d1 : ℚ) * 10 + (digitVal d2 : ℚ)) / 100)

/-- The value of a well-formed amount text in minor units, as an integer. -/
def minorUnits (neg : Bool) (groups : List Str) (d1 d2 : Char) : Int :=
  if neg then -((digitsVal 0 (ungrouped groups) * 100 + digitVal d1 * 10 + digitVal d2 : Nat) : Int)
  else ((digitsVal 0 (ungrouped groups) * 100 + digitVal d1 * 10 + digitVal d2 : Nat) : Int)

/-- Leap years of the Gregorian calendar. -/
def isLeapYear (y : Nat) : Bool := (y % 4 == 0 && y % 100 != 0) || y % 400 == 0

/-- The number of days of month `m` of year `y`. -/
def monthLength (y m : Nat) : Nat :=
  if m = 2 then (if isLeapYear y then 29 else 28)
  else if m = 4 ∨ m = 6 ∨ m = 9 ∨ m = 11 then 30
  else 31

/-- A real calendar date: month 1..12 and a day of that month. -/
def ValidDate (y m d : Nat) : Prop := 1 ≤ m ∧ m ≤ 12 ∧ 1 ≤ d ∧ d ≤ monthLength y m

/-- Validity of a date can be computed. -/
instance ValidDate.decidable (y m d : Nat) : Decidable (ValidDate y m d) :=
  inferInstanceAs (Decidable (1 ≤ m ∧ m ≤ 12 ∧ 1 ≤ d ∧ d ≤ monthLength y m))

/-- The text `s` is `DD.MM.YYYY` with the digits of day `d`, month `m` and
year `y`. -/
def IsDateText (s : Str) (y m d : Nat) : Prop :=
  ∃ d1 d2 m1 m2 y1 y2 y3 y4 : Char,
    s = [d1, d2, '.', m1, m2, '.', y1, y2, y3, y4] ∧
    isDigit d1 = true ∧ isDigit d2 = true ∧ isDigit m1 = true ∧ isDigit m2 = true ∧
    isDigit y1 = true ∧ isDigit y2 = true ∧ isDigit y3 = true ∧ isDigit y4 = true ∧
    d = digitVal d1 * 10 + digitVal d2 ∧ m = digitVal m1 * 10 + digitVal m2 ∧
    y = digitVal y1 * 1000 + digitVal y2 * 100 + digitVal y3 * 10 + digitVal y4

/-- The text `s` is a valid date in the format `DD.MM.YYYY`. -/
def IsValidDateText (s : Str) : Prop := ∃ y m d, IsDateText s y m d ∧ ValidDate y m d

/-- The row has at least four fields, and the reader makes the record `rec`
of it: its field 0 parses as the date `rec.Time`, its field 2 is
`rec.Text`, its field 3 parses as the amount `rec.Amount`. -/
def Yields (rd : Input) (row : List Str) (rec : Record) : Prop :=
  4 ≤ row.length ∧ timeParse (row.getD 0 []) = (rec.Time, none) ∧
    rec.Text = row.getD 2 [] ∧
    (NewReader rd).parseAmount (row.getD 3 []) = (rec.Amount, none)

/-- A well-formed data row and the record built from it: at least four
fields, a valid `DD.MM.YYYY` date in field 0, a well-formed two-decimal
amount in field 3 whose value in minor units fits in 64 bits; the record
holds that date at midnight, field 2, and the amount in minor units. -/
def WellFormedRow (row : List Str) (rec : Record) : Prop :=
  4 ≤ row.length ∧
  (∃ y m d, IsDateText (row.getD 0 []) y m d ∧ ValidDate y m d ∧ rec.Time = Date y m d) ∧
  rec.Text = row.getD 2 [] ∧
  (∃ (neg : Bool) (groups : List Str) (d1 d2 : Char),
    row.getD 3 [] = amountText neg groups d1 d2 ∧
    (∀ g ∈ groups, ∀ c ∈ g, isDigit c = true) ∧ isDigit d1 = true ∧ isDigit d2 = true ∧
    -(2 ^ 63) ≤ minorUnits neg groups d1 d2 ∧ minorUnits neg groups d1 d2 ≤ 2 ^ 63 - 1 ∧
    rec.Amount = minorUnits neg groups d1 d2)

/-- The rows of at least four fields: the rows `Read` does not skip. -/
def dataRows (rows : List (List Str)) : List (List Str) :=
  rows.filter (fun r => decide (4 ≤ r.length))

/-- The decimal value of an amount text with the digits `frac` after the decimal
separator, however many they are. -/
def decimalValueOf (neg : Bool) (groups : List Str) (frac : Str) : ℚ :=
  (if neg then -1 else 1) *
    ((digitsVal 0 (ungrouped groups) : ℚ) + (digitsVal 0 frac : ℚ) / 10 ^ frac.length)

/-- An amount text with any number of fractional digits: an optional `-`, the
digits of the integer part in `groups`, the decimal separator, and the
fractional digits `frac`. -/
def decimalText (neg : Bool) (groups : List Str) (frac : Str) : Str :=
  (if neg then ['-'] else []) ++ grouped groups ++ decimalSeparator :: frac

/-- The integer the digits of an amount text spell once the separators are gone,
with its sign. -/
def spelledValue (neg : Bool) (groups : List Str) (frac : Str) : Int :=
  if neg then -(digitsVal 0 (ungrouped groups ++ frac) : Int)
  else (digitsVal 0 (ungrouped groups ++ frac) : Int)

/-- A row that does not make `Read` fail: it has fewer than four fields and is
skipped, or its field 0 is a valid date and its field 3, once the separators
are stripped, a signed 64-bit numeral. -/
def AcceptedRow (row : List Str) : Prop :=
  row.length < 4 ∨
    (IsValidDateText (row.getD 0 []) ∧ IsInt64Numeral (stripSeparators (row.getD 3 [])))

/-- Two rows with the same number of fields that agree on the fields 0, 2 and 3:
they differ at most in field 1 and in the fields from index 4 on. -/
def SameKey (r1 r2 : List Str) : Prop :=
  r1.length = r2.length ∧ r1.getD 0 [] = r2.getD 0 [] ∧ r1.getD 2 [] = r2.getD 2 [] ∧
    r1.getD 3 [] = r2.getD 3 []

/-- The fractional digits of an amount text: those after the decimal
separator, none when the text has no decimal separator. -/
def fractionDigits : Option Str → Str
  | none => []
  | some frac => frac

/-- An amount text of any shape: an optional `-`, the digits of the integer
part in `groups` (one group when no thousands separator is used), and then
either nothing or the decimal separator and the fractional digits. -/
def anyAmountText (neg : Bool) (groups : List Str) (frac : Option Str) : Str :=
  match frac with
  | none => (if neg then ['-'] else []) ++ grouped groups
  | some f => decimalText neg groups f

/-! ## Lemmas -/

/-- The replacer of `NewReader` deletes every `.` and every `,`: it is the
separator stripping of the specification. -/
theorem replace_eq_strip (rd : Input) (s : Str) :
    (NewReader rd).replacer.Replace s = stripSeparators s := by
  induction s with
  | nil => rfl
  | cons c cs ih =>
    simp only [Replacer.Replace, stripSeparators, List.filter_cons] at ih ⊢
    rw [ih]
    simp only [NewReader, Replacer.lookup, decimalSeparator, thousandSeparator]
    by_cases h1 : c = '.'
    · subst h1; simp
    · by_cases h2 : c = ','
      · subst h2; simp
      · simp [h1, h2]

/-- A digit is worth at most 9. -/
theorem digitVal_le {c : Char} (h : isDigit c = true) : digitVal c ≤ 9 := by
  simp only [isDigit, Bool.and_eq_true, decide_eq_true_eq] at h
  simp only [digitVal]; omega

/-- More digits never spell a smaller number. -/
theorem le_digitsVal (ds : Str) : ∀ n, n ≤ digitsVal n ds := by
  induction ds with
  | nil => intro n; exact Nat.le_refl _
  | cons c cs ih =>
    intro n
    have := ih (n * 10 + digitVal c)
    simp only [digitsVal, List.foldl_cons] at this ⊢
    omega

/-- On digits the loop of `ParseUint` returns the number they spell when it fits
in 64 bits, and the range error with `maxUint64` otherwise. -/
theorem parseUintLoop_digits (ds : Str) (hd : ∀ c ∈ ds, isDigit c = true) :
    ∀ n, n ≤ maxUint64 →
      parseUintLoop ds n =
        if digitsVal n ds ≤ maxUint64 then (digitsVal n ds, none)
        else (maxUint64, some NumErr.outOfRange) := by
  induction ds with
  | nil => intro n hn; simp [parseUintLoop, digitsVal, hn]
  | cons c cs ih =>
    intro n hn
    have hc : isDigit c = true := hd c (List.mem_cons_self _ _)
    have hcs : ∀ c ∈ cs, isDigit c = true := fun x hx => hd x (List.mem_cons_of_mem _ hx)
    have h9 := digitVal_le hc
    have hmono := le_digitsVal cs (n * 10 + digitVal c)
    have hstep : digitsVal n (c :: cs) = digitsVal (n * 10 + digitVal c) cs := rfl
    rw [hstep]
    simp only [parseUintLoop, hc, if_true]
    simp only [maxUint64] at hn hmono ⊢
    by_cases h1 : n ≥ (2 ^ 64 - 1) / 10 + 1
    · rw [if_pos h1, if_neg (by omega)]
    · rw [if_neg h1]
      by_cases h2 : n * 10 + digitVal c < 2 ^ 64
      · rw [Nat.mod_eq_of_lt h2, if_neg (by omega)]
        have := ih hcs (n * 10 + digitVal c) (by simp only [maxUint64]; omega)
        simpa only [maxUint64] using this
      · have hmod : (n * 10 + digitVal c) % 2 ^ 64 = n * 10 + digitVal c - 2 ^ 64 := by
          omega
        rw [hmod, if_pos (by omega), if_neg (by omega)]

/-- A character that is not a digit makes the loop of `ParseUint` fail. -/
theorem parseUintLoop_nondigit (ds : Str) (h : ∃ c ∈ ds, isDigit c = false) :
    ∀ n, (parseUintLoop ds n).2 ≠ none := by
  induction ds with
  | nil => obtain ⟨c, hc, _⟩ := h; simp at hc
  | cons c cs ih =>
    intro n
    simp only [parseUintLoop]
    by_cases hc : isDigit c = true
    · have h2 : ∃ c ∈ cs, isDigit c = false := by
        obtain ⟨x, hx, hxd⟩ := h
        rcases List.mem_cons.mp hx with rfl | hx
        · rw [hc] at hxd; cases hxd
        · exact ⟨x, hx, hxd⟩
      rw [if_pos hc]
      split
      · simp
      · split
        · simp
        · exact ih h2 _
    · rw [if_neg hc]; simp

/-- The loop of `ParseUint` returns `maxUint64` with its range error. -/
theorem parseUintLoop_range (ds : Str) :
    ∀ n u, parseUintLoop ds n = (u, some NumErr.outOfRange) → u = maxUint64 := by
  induction ds with
  | nil => intro n u h; simp [parseUintLoop] at h
  | cons c cs ih =>
    intro n u h
    simp only [parseUintLoop] at h
    split at h
    · split at h
      · simp only [Prod.mk.injEq] at h; exact h.1.symm
      · split at h
        · simp only [Prod.mk.injEq] at h; exact h.1.symm
        · exact ih _ _ h
    · simp at h

/-- `ParseInt` picks off the sign the specification calls the optional leading
sign. -/
theorem ParseInt_eq_body (t : Str) :
    ParseInt t = parseIntBody (numeralNeg t) (numeralBody t) := by
  cases t with
  | nil => simp [ParseInt, parseIntBody, numeralBody, ParseUint]
  | cons c cs =>
    simp only [ParseInt, numeralNeg, numeralBody]
    by_cases h1 : c = '+'
    · subst h1; simp
    · by_cases h2 : c = '-'
      · subst h2; simp
      · simp [h1, h2]

/-- `ParseUint` on a text that is not empty is its loop from zero. -/
theorem ParseUint_cons (c : Char) (cs : Str) : ParseUint (c :: cs) = parseUintLoop (c :: cs) 0 := rfl

/-- `ParseInt` after the sign, on digits: the signed number when it fits in 64
bits, the range error otherwise. -/
theorem parseIntBody_digits (neg : Bool) (ds : Str) (hne : ds ≠ [])
    (hd : ∀ c ∈ ds, isDigit c = true) :
    parseIntBody neg ds =
      if neg = true then
        (if digitsVal 0 ds ≤ 2 ^ 63 then (-(digitsVal 0 ds : Int), none)
         else (-(2 ^ 63), some NumErr.outOfRange))
      else
        (if digitsVal 0 ds < 2 ^ 63 then ((digitsVal 0 ds : Int), none)
         else (2 ^ 63 - 1, some NumErr.outOfRange)) := by
  obtain ⟨c, cs, rfl⟩ := List.exists_cons_of_ne_nil hne
  have hU := parseUintLoop_digits (c :: cs) hd 0 (by simp [maxUint64])
  simp only [parseIntBody, ParseUint_cons, hU]
  generalize digitsVal 0 (c :: cs) = V
  by_cases hV : V ≤ maxUint64
  · rw [if_pos hV]
    simp only [maxUint64] at hV
    cases neg
    · simp only [Bool.not_false, Bool.true_and, Bool.false_and, decide_eq_true_eq,
        Bool.false_eq_true, if_false, int64OfUint64]
      by_cases h : V < 2 ^ 63
      · rw [if_neg (by omega), if_pos h, if_pos h]
      · rw [if_pos (by omega), if_neg h]
    · simp only [Bool.not_true, Bool.true_and, Bool.false_and, decide_eq_true_eq,
        Bool.false_eq_true, if_false, if_true, int64OfUint64, negInt64]
      by_cases h : V ≤ 2 ^ 63
      · rw [if_neg (by omega), if_pos h]
        by_cases h3 : V < 2 ^ 63
        · rw [if_pos h3, if_neg (by omega)]
        · have h4 : V = 2 ^ 63 := by omega
          subst h4
          norm_num
      · rw [if_pos (by omega), if_neg h]
  · rw [if_neg hV]
    simp only [maxUint64] at hV ⊢
    cases neg
    · simp only [Bool.not_false, Bool.true_and, Bool.false_and, decide_eq_true_eq,
        Bool.false_eq_true, if_false]
      rw [if_pos (by omega), if_neg (by omega)]
    · simp only [Bool.not_true, Bool.true_and, Bool.false_and, decide_eq_true_eq,
        Bool.false_eq_true, if_false, if_true]
      rw [if_pos (by omega), if_neg (by omega)]

/-- `ParseInt` after the sign fails on the empty text and on a character that is
not a digit. -/
theorem parseIntBody_bad (neg : Bool) (s : Str)
    (h : s = [] ∨ ∃ c ∈ s, isDigit c = false) : (parseIntBody neg s).2 ≠ none := by
  have hU : (ParseUint s).2 ≠ none := by
    rcases h with rfl | h
    · simp [ParseUint]
    · cases s with
      | nil => obtain ⟨c, hc, _⟩ := h; simp at hc
      | cons c cs => exact parseUintLoop_nondigit _ h 0
  have hR : ∀ u, ParseUint s = (u, some NumErr.outOfRange) → u = maxUint64 := by
    intro u hu
    cases s with
    | nil => simp [ParseUint] at hu
    | cons c cs => exact parseUintLoop_range _ _ _ hu
  rcases hp : ParseUint s with ⟨u, e⟩
  rw [hp] at hU
  cases e with
  | none => exact absurd rfl hU
  | some e =>
    cases e with
    | invalid => simp [parseIntBody, hp]
    | outOfRange =>
      have := hR u hp
      subst this
      cases neg <;> simp [parseIntBody, hp, maxUint64]

/-- `ParseInt` returns the value of a signed 64-bit numeral, and fails on every
other text. -/
theorem ParseInt_spec (t : Str) :
    (IsInt64Numeral t → ParseInt t = (numeralValue t, none)) ∧
    (¬ IsInt64Numeral t → (ParseInt t).2 ≠ none) := by
  rw [ParseInt_eq_body]
  constructor
  · rintro ⟨hne, hd, hlo, hhi⟩
    rw [parseIntBody_digits _ _ hne hd]
    simp only [numeralValue] at hlo hhi ⊢
    cases hneg : numeralNeg t
    · simp only [hneg, Bool.false_eq_true, if_false] at hlo hhi ⊢
      rw [if_pos (by omega)]
    · simp only [hneg, if_true] at hlo hhi ⊢
      rw [if_pos (by omega)]
  · intro hnot
    by_cases hne : numeralBody t = []
    · exact parseIntBody_bad _ _ (Or.inl hne)
    · by_cases hd : ∀ c ∈ numeralBody t, isDigit c = true
      · rw [parseIntBody_digits _ _ hne hd]
        have hr : ¬ (-(2 ^ 63) ≤ numeralValue t ∧ numeralValue t ≤ 2 ^ 63 - 1) :=
          fun h => hnot ⟨hne, hd, h.1, h.2⟩
        simp only [numeralValue] at hr
        cases hneg : numeralNeg t
        · simp only [hneg, Bool.false_eq_true, if_false] at hr ⊢
          rw [if_neg (by omega)]; simp
        · simp only [hneg, if_true] at hr ⊢
          rw [if_neg (by omega)]; simp
      · apply parseIntBody_bad
        right
        push_neg at hd
        obtain ⟨c, hc, hcd⟩ := hd
        exact ⟨c, hc, by simpa using hcd⟩

/-- `parseAmount` returns what `ParseInt` returns on the stripped text. -/
theorem parseAmount_ok (rd : Input) (s : Str) (n : Int)
    (h : ParseInt (stripSeparators s) = (n, none)) :
    (NewReader rd).parseAmount s = (n, none) := by
  simp only [defaultReader.parseAmount, replace_eq_strip, h]

/-- `parseAmount` fails, with the value 0, when `ParseInt` fails on the stripped
text. -/
theorem parseAmount_err (rd : Input) (s : Str)
    (h : (ParseInt (stripSeparators s)).2 ≠ none) :
    ∃ e, (NewReader rd).parseAmount s = (0, some e) ∧ (ParseInt (stripSeparators s)).2 = some e := by
  simp only [defaultReader.parseAmount, replace_eq_strip]
  rcases hp : ParseInt (stripSeparators s) with ⟨n, e⟩
  rw [hp] at h
  cases e with
  | none => exact absurd rfl h
  | some e => exact ⟨e, rfl, rfl⟩

/-- A digit is neither a separator nor a sign. -/
theorem digit_ne_special {c : Char} (h : isDigit c = true) :
    c ≠ '.' ∧ c ≠ ',' ∧ c ≠ '+' ∧ c ≠ '-' := by
  refine ⟨?_, ?_, ?_, ?_⟩ <;> (rintro rfl; revert h; decide)

/-- Stripping leaves digits alone. -/
theorem strip_digits (ds : Str) (h : ∀ c ∈ ds, isDigit c = true) : stripSeparators ds = ds := by
  simp only [stripSeparators, List.filter_eq_self]
  intro c hc
  have := digit_ne_special (h c hc)
  simp [this.1, this.2.1]

/-- Stripping goes through concatenation. -/
theorem strip_append (a b : Str) :
    stripSeparators (a ++ b) = stripSeparators a ++ stripSeparators b := by
  simp [stripSeparators]

/-- Stripping the grouped digits leaves the digits. -/
theorem strip_grouped (groups : List Str) (h : ∀ g ∈ groups, ∀ c ∈ g, isDigit c = true) :
    stripSeparators (grouped groups) = ungrouped groups := by
  induction groups with
  | nil => rfl
  | cons g gs ih =>
    have hg := strip_digits g (h g (List.mem_cons_self _ _))
    have hgs : ∀ g ∈ gs, ∀ c ∈ g, isDigit c = true := fun x hx => h x (List.mem_cons_of_mem _ hx)
    cases gs with
    | nil => simp [grouped, ungrouped, hg]
    | cons g2 gs2 =>
      have ih2 := ih hgs
      simp only [grouped, ungrouped] at ih2 ⊢
      rw [strip_append, hg]
      have hsep : stripSeparators (thousandSeparator :: grouped (g2 :: gs2))
          = stripSeparators (grouped (g2 :: gs2)) := by
        simp [stripSeparators, thousandSeparator]
      simp only [grouped] at hsep
      rw [hsep, ih2]

/-- The digits of groups of digits are digits. -/
theorem ungrouped_digits (groups : List Str) (h : ∀ g ∈ groups, ∀ c ∈ g, isDigit c = true) :
    ∀ c ∈ ungrouped groups, isDigit c = true := by
  induction groups with
  | nil => intro c hc; simp [ungrouped] at hc
  | cons g gs ih =>
    intro c hc
    simp only [ungrouped, List.mem_append] at hc
    rcases hc with hc | hc
    · exact h g (List.mem_cons_self _ _) c hc
    · exact ih (fun x hx => h x (List.mem_cons_of_mem _ hx)) c hc

/-- The number spelled by two runs of digits. -/
theorem digitsVal_append (n : Nat) (a b : Str) :
    digitsVal n (a ++ b) = digitsVal (digitsVal n a) b := by
  simp [digitsVal, List.foldl_append]

/-- Stripping a well-formed amount text leaves its sign and its digits. -/
theorem strip_amountText (neg : Bool) (groups : List Str) (d1 d2 : Char)
    (hg : ∀ g ∈ groups, ∀ c ∈ g, isDigit c = true)
    (h1 : isDigit d1 = true) (h2 : isDigit d2 = true) :
    stripSeparators (amountText neg groups d1 d2) =
      (if neg then ['-'] else []) ++ (ungrouped groups ++ [d1, d2]) := by
  simp only [amountText, strip_append, strip_grouped groups hg, List.append_assoc]
  congr 1
  · cases neg <;> rfl
  · congr 1
    have a1 := digit_ne_special h1
    have a2 := digit_ne_special h2
    simp [stripSeparators, decimalSeparator, a1.1, a1.2.1, a2.1, a2.2.1]

/-- Sign and body of a run of digits with or without `-` in front. -/
theorem numeral_of_signed_digits (neg : Bool) (ds : Str) (hne : ds ≠ [])
    (hd : ∀ c ∈ ds, isDigit c = true) :
    numeralBody ((if neg then ['-'] else []) ++ ds) = ds ∧
    numeralNeg ((if neg then ['-'] else []) ++ ds) = neg := by
  cases neg
  · obtain ⟨c, cs, rfl⟩ := List.exists_cons_of_ne_nil hne
    have := digit_ne_special (hd c (List.mem_cons_self _ _))
    simp [numeralBody, numeralNeg, this.2.2.1, this.2.2.2]
  · simp [numeralBody, numeralNeg]

/-- `parseAmount` returns the minor units of a well-formed amount text. -/
theorem parseAmount_amountText (rd : Input) (neg : Bool) (groups : List Str) (d1 d2 : Char)
    (hg : ∀ g ∈ groups, ∀ c ∈ g, isDigit c = true)
    (h1 : isDigit d1 = true) (h2 : isDigit d2 = true)
    (hlo : -(2 ^ 63) ≤ minorUnits neg groups d1 d2)
    (hhi : minorUnits neg groups d1 d2 ≤ 2 ^ 63 - 1) :
    (NewReader rd).parseAmount (amountText neg groups d1 d2) =
      (minorUnits neg groups d1 d2, none) := by
  apply parseAmount_ok
  rw [strip_amountText neg groups d1 d2 hg h1 h2]
  have hd : ∀ c ∈ ungrouped groups ++ [d1, d2], isDigit c = true := by
    intro c hc
    simp only [List.mem_append, List.mem_cons, List.mem_singleton, List.not_mem_nil,
      or_false] at hc
    rcases hc with hc | rfl | rfl
    · exact ungrouped_digits groups hg c hc
    · exact h1
    · exact h2
  have hne : ungrouped groups ++ [d1, d2] ≠ [] := by simp
  obtain ⟨hb, hn⟩ := numeral_of_signed_digits neg _ hne hd
  have hval : numeralValue ((if neg then ['-'] else []) ++ (ungrouped groups ++ [d1, d2]))
      = minorUnits neg groups d1 d2 := by
    simp only [numeralValue, hb, hn, minorUnits, digitsVal_append]
    have : digitsVal (digitsVal 0 (ungrouped groups)) [d1, d2]
        = digitsVal 0 (ungrouped groups) * 100 + digitVal d1 * 10 + digitVal d2 := by
      simp only [digitsVal, List.foldl_cons, List.foldl_nil]; ring
    rw [this]
  have hnum : IsInt64Numeral ((if neg then ['-'] else []) ++ (ungrouped groups ++ [d1, d2])) := by
    refine ⟨by rw [hb]; exact hne, by rw [hb]; exact hd, ?_, ?_⟩
    · rw [hval]; exact hlo
    · rw [hval]; exact hhi
  rw [(ParseInt_spec _).1 hnum, hval]

/-- The minor units are the decimal value times 100. -/
theorem minorUnits_eq_decimal (neg : Bool) (groups : List Str) (d1 d2 : Char) :
    ((minorUnits neg groups d1 d2 : Int) : ℚ) = 100 * decimalValue neg groups d1 d2 := by
  cases neg
  · simp only [minorUnits, decimalValue, Bool.false_eq_true, if_false]
    push_cast; ring
  · simp only [minorUnits, decimalValue, if_true]
    push_cast; ring

/-- `isLeap` of package `time` is the Gregorian rule. -/
theorem isLeap_eq (y : Nat) : isLeap y = isLeapYear y := by
  simp only [isLeap, isLeapYear]
  rw [Bool.eq_iff_iff]
  simp only [Bool.and_eq_true, Bool.or_eq_true, beq_iff_eq, bne_iff_ne, ne_eq]
  constructor <;> intro h <;> omega

/-- `daysIn` of package `time` is the length of the month. -/
theorem daysIn_eq (m y : Nat) (h1 : 1 ≤ m) (h12 : m ≤ 12) : daysIn m y = monthLength y m := by
  simp only [daysIn, monthLength, isLeap_eq]
  interval_cases m <;> simp [daysBefore]

/-- What `getnum` accepts: two digits. -/
theorem getnum2_some {s r : Str} {n : Nat} (h : getnum2 s = some (n, r)) :
    ∃ c0 c1, s = c0 :: c1 :: r ∧ isDigit c0 = true ∧ isDigit c1 = true ∧
      n = digitVal c0 * 10 + digitVal c1 := by
  match s, h with
  | c0 :: c1 :: rest, h =>
    simp only [getnum2] at h
    split at h
    · rename_i hd
      simp only [Bool.and_eq_true] at hd
      simp only [Option.some.injEq, Prod.mk.injEq] at h
      exact ⟨c0, c1, by rw [h.2], hd.1, hd.2, h.1.symm⟩
    · cases h
  | [], h => simp [getnum2] at h
  | [_], h => simp [getnum2] at h

/-- What `skip` accepts: a dot. -/
theorem skipDot_some {s r : Str} (h : skipDot s = some r) : s = '.' :: r := by
  match s, h with
  | c :: rest, h =>
    simp only [skipDot] at h
    split at h
    · rename_i hc
      simp only [Option.some.injEq] at h
      rw [hc, h]
    · cases h
  | [], h => simp [skipDot] at h

/-- What the year case accepts: four digits. -/
theorem getYear_some {s r : Str} {n : Nat} (h : getYear s = some (n, r)) :
    ∃ c0 c1 c2 c3, s = c0 :: c1 :: c2 :: c3 :: r ∧ isDigit c0 = true ∧ isDigit c1 = true ∧
      isDigit c2 = true ∧ isDigit c3 = true ∧
      n = digitVal c0 * 1000 + digitVal c1 * 100 + digitVal c2 * 10 + digitVal c3 := by
  match s, h with
  | c0 :: c1 :: c2 :: c3 :: rest, h =>
    simp only [getYear] at h
    split at h
    · rename_i hd
      simp only [Bool.and_eq_true] at hd
      simp only [Option.some.injEq, Prod.mk.injEq] at h
      refine ⟨c0, c1, c2, c3, by rw [h.2], hd.1.1.1, hd.1.1.2, hd.1.2, hd.2, ?_⟩
      rw [← h.1]; ring
    · cases h
  | [], h => simp [getYear] at h
  | [_], h => simp [getYear] at h
  | [_, _], h => simp [getYear] at h
  | [_, _, _], h => simp [getYear] at h

/-- `time.Parse` returns the date of a valid date text, at midnight. -/
theorem timeParse_of_date {s : Str} {y m d : Nat} (hs : IsDateText s y m d)
    (hv : ValidDate y m d) : timeParse s = (Date y m d, none) := by
  obtain ⟨d1, d2, m1, m2, y1, y2, y3, y4, rfl, hd1, hd2, hm1, hm2, hy1, hy2, hy3, hy4,
    rfl, rfl, rfl⟩ := hs
  obtain ⟨hm1', hm12, hd1', hdl⟩ := hv
  rw [← daysIn_eq _ _ hm1' hm12] at hdl
  have hy : ((digitVal y1 * 10 + digitVal y2) * 10 + digitVal y3) * 10 + digitVal y4
      = digitVal y1 * 1000 + digitVal y2 * 100 + digitVal y3 * 10 + digitVal y4 := by ring
  simp only [timeParse, getnum2, skipDot, getYear, hd1, hd2, hm1, hm2, hy1, hy2, hy3, hy4,
    Bool.and_self, if_true, hy]
  rw [if_neg (by omega)]
  simp only [ne_eq, not_true_eq_false, if_false]
  rw [if_neg (by omega)]

/-- `time.Parse` succeeds on valid date texts only. -/
theorem timeParse_ok {s : Str} {t : Time} (h : timeParse s = (t, none)) :
    ∃ y m d, IsDateText s y m d ∧ ValidDate y m d ∧ t = Date y m d := by
  unfold timeParse at h
  split at h
  · cases h
  · rename_i day v1 h1
    split at h
    · cases h
    · rename_i v2 h2
      split at h
      · cases h
      · rename_i month v3 h3
        split at h
        · cases h
        · rename_i hmonth
          split at h
          · cases h
          · rename_i v4 h4
            split at h
            · cases h
            · rename_i year v5 h5
              split at h
              · cases h
              · rename_i hv5
                split at h
                · cases h
                · rename_i hday
                  simp only [Prod.mk.injEq, and_true] at h
                  obtain ⟨c0, c1, rfl, hc0, hc1, rfl⟩ := getnum2_some h1
                  have e2 := skipDot_some h2
                  obtain ⟨b0, b1, e3, hb0, hb1, rfl⟩ := getnum2_some h3
                  have e4 := skipDot_some h4
                  obtain ⟨a0, a1, a2, a3, e5, ha0, ha1, ha2, ha3, rfl⟩ := getYear_some h5
                  have hv5' : v5 = [] := by simpa using hv5
                  subst hv5'
                  subst e5; subst e4; subst e3; subst e2
                  have hm1 : 1 ≤ digitVal b0 * 10 + digitVal b1 := by omega
                  have hm12 : digitVal b0 * 10 + digitVal b1 ≤ 12 := by omega
                  refine ⟨_, _, _, ⟨c0, c1, b0, b1, a0, a1, a2, a3, rfl, hc0, hc1, hb0, hb1,
                    ha0, ha1, ha2, ha3, rfl, rfl, rfl⟩, ⟨hm1, hm12, by omega, ?_⟩, h.symm⟩
                  rw [← daysIn_eq _ _ hm1 hm12]; omega

/-- The field-count check lets a row of `w` fields through when no count or the
count `w` is required, and requires `w` from then on. -/
theorem checkFields_row (n : Nat) (fpr : Int) (r : List Str) (w : Nat) (hw : 0 < w)
    (hr : r.length = w) (hf : fpr = 0 ∨ fpr = (w : Int)) :
    checkFields n fpr (Lexed.row r) = (Lexed.row r, (w : Int)) := by
  rcases hf with rfl | rfl
  · simp [checkFields, hr]
  · have : (0 : Int) < (w : Int) := by exact_mod_cast hw
    simp [checkFields, hr, this]

/-- One step of the loop on a row that yields a record. -/
theorem readLoop_step (rd : Input) (r : List Str) (rec : Record) (w : Nat)
    (hy : Yields rd r rec) (hr : r.length = w) (fpr : Int) (hf : fpr = 0 ∨ fpr = (w : Int))
    (n : Nat) (pending : List (Nat × Lexed)) (rs : List Record) (line : Nat) :
    (NewReader rd).readLoop ((n, Lexed.row r) :: pending) fpr rs line =
      (NewReader rd).readLoop pending (w : Int) (rs ++ [rec]) (line + 1) := by
  obtain ⟨h4, ht, hx, ha⟩ := hy
  have hw : 0 < w := by omega
  rw [defaultReader.readLoop, checkFields_row n fpr r w hw hr hf]
  simp only [if_neg (show ¬ r.length < 4 by omega), ht, ha]
  rw [← hx]

/-- The loop on rows of one width that all yield records: the records are
appended in order and the line counter counts the rows. -/
theorem readLoop_rows (rd : Input) (w : Nat) (tail : List (Nat × Lexed)) :
    ∀ (rows : List (List Str)) (recs : List Record), List.Forall₂ (Yields rd) rows recs →
      (∀ r ∈ rows, r.length = w) →
      ∀ (pre : List (Nat × Lexed)) (fpr : Int) (rs : List Record) (line : Nat),
        pre.map Prod.snd = rows.map Lexed.row → (fpr = 0 ∨ fpr = (w : Int)) →
        ∃ fpr2 : Int, (fpr2 = 0 ∨ fpr2 = (w : Int)) ∧
          (NewReader rd).readLoop (pre ++ tail) fpr rs line =
            (NewReader rd).readLoop tail fpr2 (rs ++ recs) (line + rows.length) := by
  intro rows recs h
  induction h with
  | nil =>
    intro _ pre fpr rs line hpre hf
    have : pre = [] := by simpa using hpre
    subst this
    exact ⟨fpr, hf, by simp⟩
  | @cons r rec rows recs hy _ ih =>
    intro hw pre fpr rs line hpre hf
    cases pre with
    | nil => simp at hpre
    | cons x pre =>
      obtain ⟨n, l⟩ := x
      simp only [List.map_cons, List.cons.injEq] at hpre
      obtain ⟨hl, hpre⟩ := hpre
      subst hl
      obtain ⟨fpr2, hf2, heq⟩ := ih (fun x hx => hw x (List.mem_cons_of_mem _ hx)) pre (w : Int)
        (rs ++ [rec]) (line + 1) hpre (Or.inr rfl)
      refine ⟨fpr2, hf2, ?_⟩
      rw [List.cons_append,
        readLoop_step rd r rec w hy (hw r (List.mem_cons_self _ _)) fpr hf, heq]
      simp only [List.append_assoc, List.singleton_append, List.length_cons]
      congr 1
      omega

/-- A list of delivered items whose records are `a`, then `b`, then `c`. -/
theorem lexed_split (l : List (Nat × Lexed)) (a : List Lexed) (b : Lexed) (c : List Lexed)
    (h : l.map Prod.snd = a ++ b :: c) :
    ∃ l1 n l2, l = l1 ++ (n, b) :: l2 ∧ l1.map Prod.snd = a ∧ l2.map Prod.snd = c := by
  induction a generalizing l with
  | nil =>
    cases l with
    | nil => simp at h
    | cons x l =>
      obtain ⟨n, y⟩ := x
      simp only [List.map_cons, List.nil_append, List.cons.injEq] at h
      obtain ⟨hy, hl⟩ := h
      subst hy
      exact ⟨[], n, l, rfl, rfl, hl⟩
  | cons a0 a ih =>
    cases l with
    | nil => simp at h
    | cons x l =>
      simp only [List.map_cons, List.cons_append, List.cons.injEq] at h
      obtain ⟨hx, hl⟩ := h
      obtain ⟨l1, n, l2, e, h1, h2⟩ := ih l hl
      exact ⟨x :: l1, n, l2, by rw [e]; rfl, by simp [hx, h1], h2⟩

/-- The loop returns no record with an error. -/
theorem readLoop_error_nil (rd : Input) :
    ∀ (pending : List (Nat × Lexed)) (fpr : Int) (rs : List Record) (line : Nat),
      ((NewReader rd).readLoop pending fpr rs line).2 ≠ none →
      ((NewReader rd).readLoop pending fpr rs line).1 = [] := by
  intro pending
  induction pending with
  | nil => intro fpr rs line h; simp [defaultReader.readLoop] at h
  | cons l pending ih =>
    intro fpr rs line h
    obtain ⟨n, l⟩ := l
    rw [defaultReader.readLoop] at h ⊢
    split
    · rfl
    · rename_i record fpr2 hc
      simp only [hc] at h
      split
      · rename_i hlen
        rw [if_pos hlen] at h
        exact ih _ _ _ h
      · rename_i hlen
        rw [if_neg hlen] at h
        split
        · rfl
        · rename_i t ht
          simp only [ht] at h
          split
          · rfl
          · rename_i amount ha
            simp only [ha] at h
            exact ih _ _ _ h

/-- The field-count check returns the row it was given, if any. -/
theorem checkFields_row_inv {n : Nat} {fpr fpr2 : Int} {l : Lexed} {record : List Str}
    (h : checkFields n fpr l = (Lexed.row record, fpr2)) : l = Lexed.row record := by
  cases l with
  | fail e => simp [checkFields] at h
  | row fields =>
    simp only [checkFields] at h
    split at h
    · split at h
      · simp at h
      · simp only [Prod.mk.injEq, Lexed.row.injEq] at h; rw [h.1]
    · split at h <;> (simp only [Prod.mk.injEq, Lexed.row.injEq] at h; rw [h.1])

/-- A loop that ends without error has read rows only, and appended the records
of the rows of four fields or more, in order. -/
theorem readLoop_success (rd : Input) :
    ∀ (pending : List (Nat × Lexed)) (fpr : Int) (rs : List Record) (line : Nat)
      (out : List Record),
      (NewReader rd).readLoop pending fpr rs line = (out, none) →
      ∃ (rows : List (List Str)) (recs : List Record),
        pending.map Prod.snd = rows.map Lexed.row ∧ out = rs ++ recs ∧
        List.Forall₂ (Yields rd) (dataRows rows) recs := by
  intro pending
  induction pending with
  | nil =>
    intro fpr rs line out h
    simp only [defaultReader.readLoop, Prod.mk.injEq, and_true] at h
    exact ⟨[], [], rfl, by simp [h], by simp [dataRows]⟩
  | cons l pending ih =>
    intro fpr rs line out h
    obtain ⟨n, l⟩ := l
    rw [defaultReader.readLoop] at h
    split at h
    · simp at h
    · rename_i record fpr2 hc
      have hl := checkFields_row_inv hc
      subst hl
      split at h
      · rename_i hlen
        obtain ⟨rows, recs, hp, ho, hf⟩ := ih _ _ _ _ h
        refine ⟨record :: rows, recs, by rw [List.map_cons, hp]; rfl, ho, ?_⟩
        rw [dataRows, List.filter_cons_of_neg (by simpa using hlen)]
        exact hf
      · rename_i hlen
        split at h
        · simp at h
        · rename_i t ht
          split at h
          · simp at h
          · rename_i amount ha
            obtain ⟨rows, recs, hp, ho, hf⟩ := ih _ _ _ _ h
            refine ⟨record :: rows, { Time := t, Text := record.getD 2 [], Amount := amount } :: recs,
              by rw [List.map_cons, hp]; rfl, by rw [ho]; simp, ?_⟩
            rw [dataRows, List.filter_cons_of_pos (by simpa using hlen)]
            exact List.Forall₂.cons ⟨by omega, ht, rfl, ha⟩ hf


/-- The reader makes of a well-formed row the record the specification builds
from it. -/
theorem wellFormed_yields (rd : Input) {row : List Str} {rec : Record}
    (h : WellFormedRow row rec) : Yields rd row rec := by
  obtain ⟨h4, ⟨y, m, d, hs, hv, ht⟩, hx, ⟨neg, groups, d1, d2, hf, hg, h1, h2, hlo, hhi, ha⟩⟩ := h
  refine ⟨h4, ?_, hx, ?_⟩
  · rw [ht]; exact timeParse_of_date hs hv
  · rw [hf, ha]; exact parseAmount_amountText rd neg groups d1 d2 hg h1 h2 hlo hhi

/-- A text that is not a valid date makes `time.Parse` fail. -/
theorem timeParse_invalid {s : Str} (h : ¬ IsValidDateText s) :
    ∃ t e, timeParse s = (t, some e) := by
  rcases hp : timeParse s with ⟨t, e⟩
  cases e with
  | none =>
    obtain ⟨y, m, d, hs, hv, _⟩ := timeParse_ok hp
    exact absurd ⟨y, m, d, hs, hv⟩ h
  | some e => exact ⟨t, e, rfl⟩

/-- A text on which `time.Parse` fails is not a valid date. -/
theorem not_valid_of_timeParse_error {s : Str} (h : (timeParse s).2 ≠ none) :
    ¬ IsValidDateText s := by
  rintro ⟨y, m, d, hs, hv⟩
  rw [timeParse_of_date hs hv] at h
  exact h rfl

/-- One step of the loop on a row of four fields or more whose field 0 is not a
valid date. -/
theorem readLoop_bad_time (rd : Input) (r : List Str) (w : Nat) (h4 : 4 ≤ r.length)
    (hr : r.length = w) (fpr : Int) (hf : fpr = 0 ∨ fpr = (w : Int))
    (hbad : ¬ IsValidDateText (r.getD 0 []))
    (n : Nat) (pending : List (Nat × Lexed)) (rs : List Record) (line : Nat) :
    ∃ cause, (NewReader rd).readLoop ((n, Lexed.row r) :: pending) fpr rs line =
      ([], some (ReadError.invalidTime (line + 1) (r.getD 0 []) cause)) := by
  obtain ⟨t, e, ht⟩ := timeParse_invalid hbad
  refine ⟨e, ?_⟩
  rw [defaultReader.readLoop, checkFields_row n fpr r w (by omega) hr hf]
  simp only [if_neg (show ¬ r.length < 4 by omega), ht]

/-- One step of the loop on a row of four fields or more with a valid date whose
field 3 is not a numeral once the separators are stripped. -/
theorem readLoop_bad_amount (rd : Input) (r : List Str) (w : Nat) (h4 : 4 ≤ r.length)
    (hr : r.length = w) (fpr : Int) (hf : fpr = 0 ∨ fpr = (w : Int))
    (hdate : IsValidDateText (r.getD 0 []))
    (hbad : ¬ IsInt64Numeral (stripSeparators (r.getD 3 [])))
    (n : Nat) (pending : List (Nat × Lexed)) (rs : List Record) (line : Nat) :
    ∃ cause, (NewReader rd).readLoop ((n, Lexed.row r) :: pending) fpr rs line =
      ([], some (ReadError.invalidAmount (line + 1) (r.getD 3 []) cause)) := by
  obtain ⟨y, m, d, hs, hv⟩ := hdate
  have ht := timeParse_of_date hs hv
  obtain ⟨e, he, _⟩ := parseAmount_err rd (r.getD 3 []) ((ParseInt_spec _).2 hbad)
  refine ⟨e, ?_⟩
  rw [defaultReader.readLoop, checkFields_row n fpr r w (by omega) hr hf]
  simp only [if_neg (show ¬ r.length < 4 by omega), ht, he]

/-- A text with a character that is not a digit after its optional sign is not a
numeral. -/
theorem not_numeral_of_nondigit {t : Str} (h : ∃ c ∈ numeralBody t, isDigit c = false) :
    ¬ IsInt64Numeral t := by
  rintro ⟨_, hd, _, _⟩
  obtain ⟨c, hc, hcd⟩ := h
  rw [hd c hc] at hcd
  cases hcd

/-- The three ways of not being a signed 64-bit numeral: nothing after the sign,
a character that is not a digit, a value out of range. -/
theorem not_numeral_iff (t : Str) :
    ¬ IsInt64Numeral t ↔
      (numeralBody t = [] ∨ (∃ c ∈ numeralBody t, isDigit c = false) ∨
        numeralValue t < -(2 ^ 63) ∨ 2 ^ 63 - 1 < numeralValue t) := by
  constructor
  · intro h
    by_cases h1 : numeralBody t = []
    · exact Or.inl h1
    · by_cases h2 : ∀ c ∈ numeralBody t, isDigit c = true
      · by_cases h3 : -(2 ^ 63) ≤ numeralValue t
        · by_cases h4 : numeralValue t ≤ 2 ^ 63 - 1
          · exact absurd ⟨h1, h2, h3, h4⟩ h
          · exact Or.inr (Or.inr (Or.inr (by omega)))
        · exact Or.inr (Or.inr (Or.inl (by omega)))
      · push_neg at h2
        obtain ⟨c, hc, hcd⟩ := h2
        exact Or.inr (Or.inl ⟨c, hc, by simpa using hcd⟩)
  · rintro (h | h | h | h) ⟨h1, h2, h3, h4⟩
    · exact h1 h
    · obtain ⟨c, hc, hcd⟩ := h
      rw [h2 c hc] at hcd
      cases hcd
    · omega
    · omega

/-- Every element of the left list of a pointwise relation has a partner in the
right list. -/
theorem forall₂_mem_left {α β : Type} {R : α → β → Prop} {l1 : List α} {l2 : List β}
    (h : List.Forall₂ R l1 l2) : ∀ a ∈ l1, ∃ b ∈ l2, R a b := by
  induction h with
  | nil => intro a ha; simp at ha
  | @cons x y xs ys hxy _ ih =>
    intro a ha
    rcases List.mem_cons.mp ha with rfl | ha
    · exact ⟨y, List.mem_cons_self _ _, hxy⟩
    · obtain ⟨b, hb, hr⟩ := ih a ha
      exact ⟨b, List.mem_cons_of_mem _ hb, hr⟩

/-- A successful `Read` has read rows only, and returned the records of the rows
of four fields or more, in order. -/
theorem read_success (rd : Input) (recs : List Record)
    (h : (NewReader rd).Read = (recs, none)) :
    ∃ rows, csvRecords rd = rows.map Lexed.row ∧
      List.Forall₂ (Yields rd) (dataRows rows) recs := by
  obtain ⟨rows, recs2, hp, ho, hf⟩ := readLoop_success rd (csvLexed rd) 0 [] 0 recs h
  rw [List.nil_append] at ho
  subst ho
  exact ⟨rows, hp, hf⟩

/-- Lines without `\r` are delivered as they are. -/
theorem readLines_noCR (fault : Bool) (s : Str) (h : ∀ c ∈ s, c ≠ '\r') :
    readLines fault s = s := by
  induction s with
  | nil => rfl
  | cons c cs ih =>
    have hc : c ≠ '\r' := h c (List.mem_cons_self _ _)
    simp only [readLines, if_neg hc, ih (fun x hx => h x (List.mem_cons_of_mem _ hx))]

/-- Inside a quoted field every character but the quote is taken into the field. -/
theorem lexRecords_quoted_run (fault : Bool) (t rest : Str) (start : Nat) (row : List Str)
    (h : ∀ c ∈ t, c ≠ '"') :
    ∀ acc line, ∃ line2, lexRecords fault (t ++ rest) Mode.quoted line start row acc =
      lexRecords fault rest Mode.quoted line2 start row (acc ++ t) := by
  induction t with
  | nil => intro acc line; exact ⟨line, by simp⟩
  | cons c cs ih =>
    intro acc line
    have hc : c ≠ '"' := h c (List.mem_cons_self _ _)
    have hcs : ∀ c ∈ cs, c ≠ '"' := fun x hx => h x (List.mem_cons_of_mem _ hx)
    rw [List.cons_append, lexRecords, if_neg hc]
    by_cases hn : c = '\n'
    · rw [if_pos hn]
      obtain ⟨line2, e⟩ := ih hcs (acc ++ [c]) (line + 1)
      exact ⟨line2, by rw [e]; simp⟩
    · rw [if_neg hn]
      obtain ⟨line2, e⟩ := ih hcs (acc ++ [c]) line
      exact ⟨line2, by rw [e]; simp⟩

/-- Inside a field without quotes every character but `;`, the line end and the
quote is taken into the field. -/
theorem lexRecords_unquoted_run (fault : Bool) (t rest : Str) (line start : Nat)
    (row : List Str) (h : ∀ c ∈ t, c ≠ ';' ∧ c ≠ '\n' ∧ c ≠ '"') :
    ∀ acc, lexRecords fault (t ++ rest) Mode.unquoted line start row acc =
      lexRecords fault rest Mode.unquoted line start row (acc ++ t) := by
  induction t with
  | nil => intro acc; simp
  | cons c cs ih =>
    intro acc
    obtain ⟨h1, h2, h3⟩ := h c (List.mem_cons_self _ _)
    rw [List.cons_append, lexRecords, if_neg h1, if_neg h2, if_neg h3,
      ih (fun x hx => h x (List.mem_cons_of_mem _ hx))]
    simp

/-- A field without quotes, up to its `;`. -/
theorem lexRecords_plain_field (fault : Bool) (t rest : Str) (line start : Nat)
    (row : List Str) (acc : Str) (h : ∀ c ∈ t, c ≠ ';' ∧ c ≠ '\n' ∧ c ≠ '"') :
    lexRecords fault (t ++ ';' :: rest) Mode.fieldStart line start row acc =
      lexRecords fault rest Mode.fieldStart line start (row ++ [t]) [] := by
  cases t with
  | nil => simp [lexRecords]
  | cons c cs =>
    obtain ⟨h1, h2, h3⟩ := h c (List.mem_cons_self _ _)
    rw [List.cons_append, lexRecords, if_neg h3, if_neg h1, if_neg h2,
      lexRecords_unquoted_run fault cs _ line start row
        (fun x hx => h x (List.mem_cons_of_mem _ hx))]
    simp [lexRecords]

/-- The row with the text `t` in quotes as its field 2. -/
theorem csvRecords_quoted_text (t : Str) (h : ∀ c ∈ t, c ≠ '"' ∧ c ≠ '\r') :
    csvRecords ⟨"02.01.2024;x;\"".toList ++ t ++ "\";1.00\n".toList, false⟩ =
      [Lexed.row ["02.01.2024".toList, "x".toList, t, "1.00".toList]] := by
  have hcr : ∀ c ∈ "02.01.2024;x;\"".toList ++ t ++ "\";1.00\n".toList, c ≠ '\r' := by
    intro c hc
    simp only [List.mem_append] at hc
    rcases hc with (hc | hc) | hc
    · revert c; decide
    · exact (h c hc).2
    · revert c; decide
  simp only [csvRecords, csvLexed]
  rw [readLines_noCR _ _ hcr, List.append_assoc]
  have h1 : lexRecords false ("02.01.2024;x;\"".toList ++ (t ++ "\";1.00\n".toList))
      Mode.lineStart 1 1 [] [] =
      lexRecords false (t ++ "\";1.00\n".toList) Mode.quoted 1 1
        ["02.01.2024".toList, "x".toList] [] := rfl
  obtain ⟨line2, h2⟩ := lexRecords_quoted_run false t "\";1.00\n".toList 1
    ["02.01.2024".toList, "x".toList] (fun c hc => (h c hc).1) [] 1
  rw [h1, h2]
  rfl

/-- The row with the text `t`, written without quotes, as its field 2. -/
theorem csvRecords_plain_text (t : Str)
    (h : ∀ c ∈ t, c ≠ ';' ∧ c ≠ '\n' ∧ c ≠ '"' ∧ c ≠ '\r') :
    csvRecords ⟨"02.01.2024;x;".toList ++ t ++ ";1.00\n".toList, false⟩ =
      [Lexed.row ["02.01.2024".toList, "x".toList, t, "1.00".toList]] := by
  have hcr : ∀ c ∈ "02.01.2024;x;".toList ++ t ++ ";1.00\n".toList, c ≠ '\r' := by
    intro c hc
    simp only [List.mem_append] at hc
    rcases hc with (hc | hc) | hc
    · revert c; decide
    · exact (h c hc).2.2.2
    · revert c; decide
  simp only [csvRecords, csvLexed]
  rw [readLines_noCR _ _ hcr, List.append_assoc]
  have h1 : lexRecords false ("02.01.2024;x;".toList ++ (t ++ ";1.00\n".toList))
      Mode.lineStart 1 1 [] [] =
      lexRecords false (t ++ ';' :: "1.00\n".toList) Mode.fieldStart 1 1
        ["02.01.2024".toList, "x".toList] [] := rfl
  rw [h1, lexRecords_plain_field false t _ 1 1 _ _
    (fun c hc => ⟨(h c hc).1, (h c hc).2.1, (h c hc).2.2.1⟩)]
  rfl

/-- The record `Read` makes of the single row with `t` as field 2. -/
theorem read_single_row (rd : Input) (t : Str)
    (h : csvRecords rd = [Lexed.row ["02.01.2024".toList, "x".toList, t, "1.00".toList]]) :
    (NewReader rd).Read =
      ([{ Time := ⟨2024, 1, 2, 0, 0, 0, 0⟩, Text := t, Amount := 100 }], none) := by
  obtain ⟨l1, n, l2, e, h1, h2⟩ := lexed_split (csvLexed rd) [] _ [] h
  have e1 : l1 = [] := by simpa using h1
  have e2 : l2 = [] := by simpa using h2
  subst e1; subst e2
  show (NewReader rd).readLoop (csvLexed rd) 0 [] 0 = _
  rw [e]
  have hy : Yields rd ["02.01.2024".toList, "x".toList, t, "1.00".toList]
      { Time := ⟨2024, 1, 2, 0, 0, 0, 0⟩, Text := t, Amount := 100 } :=
    ⟨by simp, by
      show timeParse "02.01.2024".toList = (⟨2024, 1, 2, 0, 0, 0, 0⟩, none)
      decide, rfl, by
      show (NewReader rd).parseAmount "1.00".toList = (100, none)
      exact parseAmount_ok rd _ _ (by decide)⟩
  rw [List.nil_append, readLoop_step rd _ _ 4 hy (by simp) 0 (Or.inl rfl)]
  simp [defaultReader.readLoop]

/-- The character of a digit. -/
theorem isDigit_ofNat (m : Nat) (h : m < 10) :
    isDigit (Char.ofNat (m + 48)) = true ∧ digitVal (Char.ofNat (m + 48)) = m := by
  interval_cases m <;> decide

/-- With enough fuel `formatBits` puts the decimal digits of `u` in front of
`acc`: at least one, at least two from 10 on. -/
theorem formatBits_spec (fuel : Nat) :
    ∀ (u : Nat) (acc : Str), u < fuel →
      ∃ ds : Str, formatBits fuel u acc = ds ++ acc ∧ ds ≠ [] ∧
        (∀ c ∈ ds, isDigit c = true) ∧ digitsVal 0 ds = u ∧ (10 ≤ u → 2 ≤ ds.length) := by
  induction fuel with
  | zero => intro u acc h; omega
  | succ fuel ih =>
    intro u acc hu
    rw [formatBits]
    by_cases h10 : u < 10
    · rw [if_pos h10]
      obtain ⟨hd, hv⟩ := isDigit_ofNat u h10
      refine ⟨[Char.ofNat (u + 48)], rfl, by simp, ?_, ?_, fun h => by omega⟩
      · intro c hc
        rw [List.mem_singleton] at hc
        rw [hc]; exact hd
      · simp [digitsVal, hv]
    · rw [if_neg h10]
      obtain ⟨ds, hds, hne, hdig, hval, _⟩ :=
        ih (u / 10) (Char.ofNat (u % 10 + 48) :: acc) (by omega)
      obtain ⟨hd, hv⟩ := isDigit_ofNat (u % 10) (Nat.mod_lt _ (by omega))
      refine ⟨ds ++ [Char.ofNat (u % 10 + 48)], by rw [hds]; simp, by simp, ?_, ?_, ?_⟩
      · intro c hc
        rcases List.mem_append.mp hc with hc | hc
        · exact hdig c hc
        · rw [List.mem_singleton] at hc
          rw [hc]; exact hd
      · rw [digitsVal_append, hval]
        simp only [digitsVal, List.foldl_cons, List.foldl_nil, hv]
        omega
      · intro _
        have : 1 ≤ ds.length := List.length_pos.mpr hne
        simp only [List.length_append, List.length_singleton]
        omega

/-- Stripping deletes the separator `StringAmount` puts in. -/
theorem strip_insert_comma (n : Nat) (s : Str) :
    stripSeparators (s.take n ++ [','] ++ s.drop n) = stripSeparators s := by
  have h : stripSeparators [','] = [] := by decide
  rw [strip_append, strip_append, h, List.append_nil, ← strip_append, List.take_append_drop]

/-- The text `FormatInt` writes has no separator and is the numeral of the
value; it has two characters or more unless the value is in `0..9`. -/
theorem formatInt_numeral (v : Int) (hlo : -(2 ^ 63) ≤ v) (hhi : v ≤ 2 ^ 63 - 1) :
    stripSeparators (FormatInt v) = FormatInt v ∧ IsInt64Numeral (FormatInt v) ∧
      numeralValue (FormatInt v) = v ∧ ((v < 0 ∨ 9 < v) → 2 ≤ (FormatInt v).length) := by
  obtain ⟨ds, hds, hne, hdig, hval, hlen⟩ :=
    formatBits_spec (v.natAbs + 1) v.natAbs [] (Nat.lt_succ_self _)
  rw [List.append_nil] at hds
  have hsd := strip_digits ds hdig
  have h1 : 1 ≤ ds.length := List.length_pos.mpr hne
  by_cases hneg : v < 0
  · have hf : FormatInt v = '-' :: ds := by
      simp [FormatInt, hneg, hds]
    obtain ⟨hb, hn⟩ := numeral_of_signed_digits true ds hne hdig
    simp only [if_true, List.singleton_append] at hb hn
    have hvv : numeralValue (FormatInt v) = v := by
      rw [hf, numeralValue, hb, hn, if_pos rfl, hval]; omega
    refine ⟨?_, ⟨?_, ?_, ?_, ?_⟩, hvv, ?_⟩
    · rw [hf]
      have : stripSeparators ('-' :: ds) = '-' :: stripSeparators ds := by
        simp [stripSeparators]
      rw [this, hsd]
    · rw [hf, hb]; exact hne
    · rw [hf, hb]; exact hdig
    · rw [hvv]; exact hlo
    · rw [hvv]; exact hhi
    · intro _
      rw [hf, List.length_cons]; omega
  · have hf : FormatInt v = ds := by
      simp [FormatInt, hneg, hds]
    obtain ⟨hb, hn⟩ := numeral_of_signed_digits false ds hne hdig
    simp only [Bool.false_eq_true, if_false, List.nil_append] at hb hn
    have hvv : numeralValue (FormatInt v) = v := by
      rw [hf, numeralValue, hb, hn, if_neg (by simp), hval]; omega
    refine ⟨?_, ⟨?_, ?_, ?_, ?_⟩, hvv, ?_⟩
    · rw [hf, hsd]
    · rw [hf, hb]; exact hne
    · rw [hf, hb]; exact hdig
    · rw [hvv]; exact hlo
    · rw [hvv]; exact hhi
    · intro h
      have : 2 ≤ ds.length := hlen (by omega)
      rw [hf]; exact this

/-- Outside `0..9` the amount of a record survives `StringAmount` followed by
`parseAmount`. -/
theorem stringAmount_roundtrip (rd : Input) (r : Record)
    (hlo : -(2 ^ 63) ≤ r.Amount) (hhi : r.Amount ≤ 2 ^ 63 - 1)
    (hv : r.Amount < 0 ∨ 9 < r.Amount) :
    ∃ s, r.StringAmount = some s ∧ (NewReader rd).parseAmount s = (r.Amount, none) := by
  obtain ⟨hs, hnum, hval, hlen⟩ := formatInt_numeral r.Amount hlo hhi
  have h2 := hlen hv
  refine ⟨(FormatInt r.Amount).take (((FormatInt r.Amount).length : Int) - 2).toNat ++ [','] ++
    (FormatInt r.Amount).drop (((FormatInt r.Amount).length : Int) - 2).toNat, ?_, ?_⟩
  · simp only [Record.StringAmount]
    rw [if_neg (by omega)]
  · apply parseAmount_ok
    rw [strip_insert_comma, hs, (ParseInt_spec _).1 hnum, hval]

/-- One digit is written for a number below 10. -/
theorem formatBits_small (fuel u : Nat) (acc : Str) (h : u < 10) :
    formatBits (fuel + 1) u acc = Char.ofNat (u + 48) :: acc := by
  rw [formatBits, if_pos h]

/-- The text `FormatInt` writes: `-` for a negative number, then the digits of
its absolute value, one digit below 10 and two or more from 10 on. -/
theorem formatInt_shape (v : Int) :
    ∃ ds : Str, FormatInt v = (if v < 0 then ['-'] else []) ++ ds ∧ ds ≠ [] ∧
      (∀ c ∈ ds, isDigit c = true) ∧ digitsVal 0 ds = v.natAbs ∧
      (v.natAbs < 10 → ds.length = 1) ∧ (10 ≤ v.natAbs → 2 ≤ ds.length) := by
  obtain ⟨ds, hds, hne, hdig, hval, hlen⟩ :=
    formatBits_spec (v.natAbs + 1) v.natAbs [] (Nat.lt_succ_self _)
  rw [List.append_nil] at hds
  refine ⟨ds, ?_, hne, hdig, hval, ?_, hlen⟩
  · by_cases hneg : v < 0
    · simp [FormatInt, hneg, hds]
    · simp [FormatInt, hneg, hds]
  · intro h
    rw [formatBits_small _ _ _ h] at hds
    rw [← hds]; rfl

/-- The numeral of `v` has one character for `v` in `0..9` and two or more
otherwise. -/
theorem formatInt_length (v : Int) :
    (0 ≤ v ∧ v ≤ 9 → (FormatInt v).length = 1) ∧
    (v ≤ -1 ∨ 10 ≤ v → 2 ≤ (FormatInt v).length) := by
  obtain ⟨ds, hf, hne, _, _, h1, h2⟩ := formatInt_shape v
  have hpos : 1 ≤ ds.length := List.length_pos.mpr hne
  constructor
  · rintro ⟨h0, h9⟩
    rw [hf, if_neg (by omega), List.nil_append]
    exact h1 (by omega)
  · intro h
    rw [hf]
    by_cases hneg : v < 0
    · rw [if_pos hneg]; simp only [List.length_append, List.length_singleton]; omega
    · rw [if_neg hneg, List.nil_append]
      exact h2 (by omega)

/-- From two digits on, `StringAmount` is the numeral with `,` put in before its
last two digits. -/
theorem stringAmount_shape (r : Record) (h : r.Amount ≤ -10 ∨ 10 ≤ r.Amount) :
    ∃ (front : Str) (d1 d2 : Char), FormatInt r.Amount = front ++ [d1, d2] ∧
      isDigit d1 = true ∧ isDigit d2 = true ∧
      r.StringAmount = some (front ++ [','] ++ [d1, d2]) := by
  obtain ⟨ds, hf, hne, hdig, _, _, h2⟩ := formatInt_shape r.Amount
  have hlen : 2 ≤ ds.length := h2 (by omega)
  obtain ⟨ds1, d2, rfl⟩ : ∃ ds1 d2, ds = ds1 ++ [d2] :=
    ⟨ds.dropLast, ds.getLast hne, (List.dropLast_append_getLast hne).symm⟩
  have hne1 : ds1 ≠ [] := by
    intro h0; subst h0; simp at hlen
  obtain ⟨ds0, d1, rfl⟩ : ∃ ds0 d1, ds1 = ds0 ++ [d1] :=
    ⟨ds1.dropLast, ds1.getLast hne1, (List.dropLast_append_getLast hne1).symm⟩
  have hs : FormatInt r.Amount = ((if r.Amount < 0 then ['-'] else []) ++ ds0) ++ [d1, d2] := by
    rw [hf]; simp
  refine ⟨(if r.Amount < 0 then ['-'] else []) ++ ds0, d1, d2, hs, ?_, ?_, ?_⟩
  · exact hdig d1 (by simp)
  · exact hdig d2 (by simp)
  · simp only [Record.StringAmount, hs]
    have hl : (((((if r.Amount < 0 then ['-'] else []) ++ ds0) ++ [d1, d2]).length : Int) - 2)
        = ((((if r.Amount < 0 then ['-'] else []) ++ ds0).length : Nat) : Int) := by
      simp only [List.length_append, List.length_cons, List.length_nil]
      push_cast; ring
    rw [hl, if_neg (by omega), Int.toNat_ofNat, List.take_left, List.drop_left]

/-- Digits after a number: the number is shifted by one decimal place for each. -/
theorem digitsVal_shift (b : Str) :
    ∀ n, digitsVal n b = n * 10 ^ b.length + digitsVal 0 b := by
  induction b with
  | nil => intro n; simp [digitsVal]
  | cons c cs ih =>
    intro n
    have e1 : digitsVal n (c :: cs) = digitsVal (n * 10 + digitVal c) cs := rfl
    have e2 : digitsVal 0 (c :: cs) = digitsVal (0 * 10 + digitVal c) cs := rfl
    rw [e1, e2, ih (n * 10 + digitVal c), ih (0 * 10 + digitVal c), List.length_cons]
    ring

/-- The integer spelled by all the digits is the decimal value shifted by the
number of fractional digits. -/
theorem spelledValue_eq_decimal (neg : Bool) (groups : List Str) (frac : Str) :
    ((spelledValue neg groups frac : Int) : ℚ) =
      decimalValueOf neg groups frac * 10 ^ frac.length := by
  have h := digitsVal_shift frac (digitsVal 0 (ungrouped groups))
  have h10 : ((10 : ℚ) ^ frac.length) ≠ 0 := pow_ne_zero _ (by norm_num)
  cases neg
  · simp only [spelledValue, decimalValueOf, Bool.false_eq_true, if_false, digitsVal_append, h]
    push_cast
    field_simp
  · simp only [spelledValue, decimalValueOf, if_true, digitsVal_append, h]
    push_cast
    field_simp

/-- `parseAmount` on a text that strips to an optional `-` and digits in the
64-bit range. -/
theorem parseAmount_signed_digits (rd : Input) (s : Str) (neg : Bool) (ds : Str)
    (hs : stripSeparators s = (if neg then ['-'] else []) ++ ds) (hne : ds ≠ [])
    (hd : ∀ c ∈ ds, isDigit c = true)
    (hlo : -(2 ^ 63) ≤ (if neg then -(digitsVal 0 ds : Int) else (digitsVal 0 ds : Int)))
    (hhi : (if neg then -(digitsVal 0 ds : Int) else (digitsVal 0 ds : Int)) ≤ 2 ^ 63 - 1) :
    (NewReader rd).parseAmount s =
      (if neg then -(digitsVal 0 ds : Int) else (digitsVal 0 ds : Int), none) := by
  apply parseAmount_ok
  rw [hs]
  obtain ⟨hb, hn⟩ := numeral_of_signed_digits neg ds hne hd
  have hval : numeralValue ((if neg then ['-'] else []) ++ ds) =
      (if neg then -(digitsVal 0 ds : Int) else (digitsVal 0 ds : Int)) := by
    simp only [numeralValue, hb, hn]
  have hnum : IsInt64Numeral ((if neg then ['-'] else []) ++ ds) :=
    ⟨by rw [hb]; exact hne, by rw [hb]; exact hd, by rw [hval]; exact hlo,
      by rw [hval]; exact hhi⟩
  rw [(ParseInt_spec _).1 hnum, hval]

/-- Stripping an amount text leaves its sign and its digits. -/
theorem strip_decimalText (neg : Bool) (groups : List Str) (frac : Str)
    (hg : ∀ g ∈ groups, ∀ c ∈ g, isDigit c = true) (hf : ∀ c ∈ frac, isDigit c = true) :
    stripSeparators (decimalText neg groups frac) =
      (if neg then ['-'] else []) ++ (ungrouped groups ++ frac) := by
  simp only [decimalText, strip_append, strip_grouped groups hg, List.append_assoc]
  congr 1
  · cases neg <;> rfl
  · congr 1
    have : stripSeparators (decimalSeparator :: frac) = stripSeparators frac := by
      simp [stripSeparators, decimalSeparator]
    rw [this, strip_digits frac hf]

/-- The record that ends with the input has a field. -/
theorem atEnd_row_ne_nil {fault : Bool} {row : List Str} {x : Str} {r : List Str}
    (h : atEnd fault (row ++ [x]) = Lexed.row r) : r ≠ [] := by
  simp only [atEnd] at h
  split at h
  · cases h
  · simp only [Lexed.row.injEq] at h
    rw [← h]; simp

/-- Every record the CSV reader delivers has at least one field. -/
theorem lexRecords_row_ne_nil (fault : Bool) (s : Str) :
    ∀ (m : Mode) (line start : Nat) (row : List Str) (acc : Str) (n : Nat) (r : List Str),
      (n, Lexed.row r) ∈ lexRecords fault s m line start row acc → r ≠ [] := by
  induction s with
  | nil =>
    intro m line start row acc n r h
    cases m <;> simp only [lexRecords] at h
    · split at h <;> simp at h
    · simp only [List.mem_singleton, Prod.mk.injEq] at h
      exact atEnd_row_ne_nil h.2.symm
    · simp only [List.mem_singleton, Prod.mk.injEq] at h
      exact atEnd_row_ne_nil h.2.symm
    · simp at h
    · simp only [List.mem_singleton, Prod.mk.injEq] at h
      exact atEnd_row_ne_nil h.2.symm
  | cons c cs ih =>
    intro m line start row acc n r h
    cases m <;> simp only [lexRecords] at h
    · split at h
      · exact ih _ _ _ _ _ _ _ h
      · split at h
        · exact ih _ _ _ _ _ _ _ h
        · split at h
          · exact ih _ _ _ _ _ _ _ h
          · exact ih _ _ _ _ _ _ _ h
    · split at h
      · exact ih _ _ _ _ _ _ _ h
      · split at h
        · exact ih _ _ _ _ _ _ _ h
        · split at h
          · rcases List.mem_cons.mp h with h | h
            · simp only [Prod.mk.injEq, Lexed.row.injEq] at h
              rw [h.2]; simp
            · exact ih _ _ _ _ _ _ _ h
          · exact ih _ _ _ _ _ _ _ h
    · split at h
      · exact ih _ _ _ _ _ _ _ h
      · split at h
        · rcases List.mem_cons.mp h with h | h
          · simp only [Prod.mk.injEq, Lexed.row.injEq] at h
            rw [h.2]; simp
          · exact ih _ _ _ _ _ _ _ h
        · split at h
          · simp at h
          · exact ih _ _ _ _ _ _ _ h
    · split at h
      · exact ih _ _ _ _ _ _ _ h
      · split at h
        · exact ih _ _ _ _ _ _ _ h
        · exact ih _ _ _ _ _ _ _ h
    · split at h
      · exact ih _ _ _ _ _ _ _ h
      · split at h
        · exact ih _ _ _ _ _ _ _ h
        · split at h
          · rcases List.mem_cons.mp h with h | h
            · simp only [Prod.mk.injEq, Lexed.row.injEq] at h
              rw [h.2]; simp
            · exact ih _ _ _ _ _ _ _ h
          · simp at h

/-- Every record of `csvRecords` has at least one field. -/
theorem csvRecords_row_ne_nil (rd : Input) (r : List Str)
    (h : Lexed.row r ∈ csvRecords rd) : r ≠ [] := by
  obtain ⟨x, hx, hx2⟩ := List.mem_map.mp h
  obtain ⟨n, l⟩ := x
  simp only at hx2
  subst hx2
  exact lexRecords_row_ne_nil _ _ _ _ _ _ _ n r hx

/-- An accepted row of four fields or more yields a record. -/
theorem accepted_yields (rd : Input) {row : List Str} (h : AcceptedRow row)
    (h4 : 4 ≤ row.length) : ∃ rec, Yields rd row rec := by
  rcases h with h | ⟨⟨y, m, d, hs, hv⟩, hn⟩
  · omega
  · exact ⟨⟨Date y m d, row.getD 2 [], numeralValue (stripSeparators (row.getD 3 []))⟩,
      h4, timeParse_of_date hs hv, rfl, parseAmount_ok rd _ _ ((ParseInt_spec _).1 hn)⟩

/-- One step of the loop on a row of fewer than four fields: the row is skipped
and counted. -/
theorem readLoop_short_step (rd : Input) (r : List Str) (w : Nat) (hw : 0 < w)
    (hr : r.length = w) (h4 : w < 4) (fpr : Int) (hf : fpr = 0 ∨ fpr = (w : Int))
    (n : Nat) (pending : List (Nat × Lexed)) (rs : List Record) (line : Nat) :
    (NewReader rd).readLoop ((n, Lexed.row r) :: pending) fpr rs line =
      (NewReader rd).readLoop pending (w : Int) rs (line + 1) := by
  rw [defaultReader.readLoop, checkFields_row n fpr r w hw hr hf]
  simp only [if_pos (show r.length < 4 by omega)]

/-- The loop on accepted rows of one width: it goes through them, and from the
first of them on the width is the required number of fields. -/
theorem readLoop_accepted (rd : Input) (w : Nat) (hw : 0 < w) (tail : List (Nat × Lexed)) :
    ∀ (rows : List (List Str)), (∀ r ∈ rows, r.length = w) → (∀ r ∈ rows, AcceptedRow r) →
      ∀ (pre : List (Nat × Lexed)) (fpr : Int) (rs : List Record) (line : Nat),
        pre.map Prod.snd = rows.map Lexed.row → (fpr = 0 ∨ fpr = (w : Int)) →
        ∃ recs : List Record,
          (NewReader rd).readLoop (pre ++ tail) fpr rs line =
            (NewReader rd).readLoop tail (if rows = [] then fpr else (w : Int)) (rs ++ recs)
              (line + rows.length) := by
  intro rows
  induction rows with
  | nil =>
    intro _ _ pre fpr rs line hpre hf
    have : pre = [] := by simpa using hpre
    subst this
    exact ⟨[], by simp⟩
  | cons r rows ih =>
    intro hlen hacc pre fpr rs line hpre hf
    cases pre with
    | nil => simp at hpre
    | cons x pre =>
      obtain ⟨n, l⟩ := x
      simp only [List.map_cons, List.cons.injEq] at hpre
      obtain ⟨hl, hpre⟩ := hpre
      subst hl
      have hr : r.length = w := hlen r (List.mem_cons_self _ _)
      have hlen2 : ∀ x ∈ rows, x.length = w := fun x hx => hlen x (List.mem_cons_of_mem _ hx)
      have hacc2 : ∀ x ∈ rows, AcceptedRow x := fun x hx => hacc x (List.mem_cons_of_mem _ hx)
      have hif : (if rows = [] then (w : Int) else (w : Int)) = (w : Int) := by
        split <;> rfl
      by_cases h4 : w < 4
      · obtain ⟨recs, heq⟩ := ih hlen2 hacc2 pre (w : Int) rs (line + 1) hpre (Or.inr rfl)
        refine ⟨recs, ?_⟩
        rw [List.cons_append, readLoop_short_step rd r w hw hr h4 fpr hf, heq, hif,
          if_neg (List.cons_ne_nil _ _), List.length_cons]
        congr 1
        omega
      · obtain ⟨rec, hy⟩ := accepted_yields rd (hacc r (List.mem_cons_self _ _))
          (by omega : 4 ≤ r.length)
        obtain ⟨recs, heq⟩ := ih hlen2 hacc2 pre (w : Int) (rs ++ [rec]) (line + 1) hpre
          (Or.inr rfl)
        refine ⟨rec :: recs, ?_⟩
        rw [List.cons_append, readLoop_step rd r rec w hy hr fpr hf, heq, hif,
          if_neg (List.cons_ne_nil _ _), List.length_cons]
        simp only [List.append_assoc, List.singleton_append]
        congr 1
        omega

/-- An error met on the first rows is the result, whatever follows. -/
theorem readLoop_append_error (rd : Input) (b : List (Nat × Lexed)) :
    ∀ (a : List (Nat × Lexed)) (fpr : Int) (rs : List Record) (line : Nat),
      ((NewReader rd).readLoop a fpr rs line).2 ≠ none →
      (NewReader rd).readLoop (a ++ b) fpr rs line = (NewReader rd).readLoop a fpr rs line := by
  intro a
  induction a with
  | nil => intro fpr rs line h; simp [defaultReader.readLoop] at h
  | cons x a ih =>
    intro fpr rs line h
    obtain ⟨n, l⟩ := x
    rw [List.cons_append]
    rw [defaultReader.readLoop] at h
    rw [defaultReader.readLoop, defaultReader.readLoop]
    split
    · rfl
    · rename_i record fpr2 hc
      simp only [hc] at h
      split
      · rename_i hlen
        rw [if_pos hlen] at h
        exact ih _ _ _ h
      · rename_i hlen
        rw [if_neg hlen] at h
        split
        · rfl
        · rename_i t ht
          simp only [ht] at h
          split
          · rfl
          · rename_i amount ha
            simp only [ha] at h
            exact ih _ _ _ h

/-- An amount error is that of a row of four fields or more whose date is valid
and whose field 3 is no numeral once stripped; its number is the position of
the row. -/
theorem readLoop_amount_error (rd : Input) :
    ∀ (pending : List (Nat × Lexed)) (fpr : Int) (rs : List Record) (line : Nat)
      (out : List Record) (k : Nat) (text : Str) (cause : NumErr),
      (NewReader rd).readLoop pending fpr rs line =
        (out, some (ReadError.invalidAmount k text cause)) →
      ∃ (i : Nat) (r : List Str), (pending.map Prod.snd)[i]? = some (Lexed.row r) ∧
        k = line + i + 1 ∧ 4 ≤ r.length ∧ IsValidDateText (r.getD 0 []) ∧
        text = r.getD 3 [] ∧ ¬ IsInt64Numeral (stripSeparators text) := by
  intro pending
  induction pending with
  | nil => intro fpr rs line out k text cause h; simp [defaultReader.readLoop] at h
  | cons x pending ih =>
    intro fpr rs line out k text cause h
    obtain ⟨n, l⟩ := x
    rw [defaultReader.readLoop] at h
    split at h
    · simp at h
    · rename_i record fpr2 hc
      have hl := checkFields_row_inv hc
      subst hl
      split at h
      · obtain ⟨i, r, hi, hk, rest⟩ := ih _ _ _ _ _ _ _ h
        exact ⟨i + 1, r, by simpa using hi, by omega, rest⟩
      · rename_i hlen
        split at h
        · simp at h
        · rename_i t ht
          split at h
          · rename_i e he
            simp only [Prod.mk.injEq, Option.some.injEq, ReadError.invalidAmount.injEq] at h
            obtain ⟨_, hk, htext, _⟩ := h
            obtain ⟨y, m, d, hs, hv, _⟩ := timeParse_ok ht
            refine ⟨0, record, by simp, by omega, by omega, ⟨y, m, d, hs, hv⟩, htext.symm, ?_⟩
            intro hnum
            rw [← htext] at hnum
            have := parseAmount_ok rd (record.getD 3 []) _ ((ParseInt_spec _).1 hnum)
            rw [this] at he
            cases he
          · obtain ⟨i, r, hi, hk, rest⟩ := ih _ _ _ _ _ _ _ h
            exact ⟨i + 1, r, by simpa using hi, by omega, rest⟩

/-- The field-count check either fails, on a row whose number of fields is not
the positive required one, or lets the row through. -/
theorem checkFields_cases (n : Nat) (fpr : Int) (r : List Str) :
    (0 < fpr ∧ (r.length : Int) ≠ fpr ∧
      checkFields n fpr (Lexed.row r) = (Lexed.fail (CsvErr.fieldCount n), fpr)) ∨
    (¬ (0 < fpr ∧ (r.length : Int) ≠ fpr) ∧
      checkFields n fpr (Lexed.row r) =
        (Lexed.row r, if fpr = 0 then (r.length : Int) else fpr)) := by
  by_cases h0 : 0 < fpr
  · by_cases h1 : (r.length : Int) ≠ fpr
    · left
      refine ⟨h0, h1, ?_⟩
      simp only [checkFields, gt_iff_lt, h0, if_true, h1, ne_eq, not_false_eq_true]
    · right
      refine ⟨fun h => h1 h.2, ?_⟩
      have hne : fpr ≠ 0 := by omega
      simp only [checkFields, gt_iff_lt, h0, if_true, h1, if_false, hne]
  · right
    refine ⟨fun h => h0 h.1, ?_⟩
    by_cases hz : fpr = 0
    · subst hz
      simp [checkFields]
    · simp only [checkFields, gt_iff_lt, h0, if_false, hz]

/-- `parseAmount` does not depend on the input of the reader. -/
theorem parseAmount_any_reader (rd1 rd2 : Input) (s : Str) :
    (NewReader rd1).parseAmount s = (NewReader rd2).parseAmount s := rfl

/-- The loop on two lists of rows that agree on the number of fields and on the
fields 0, 2 and 3: the same result, or the field-count error on the same row
of both. -/
theorem readLoop_sameKey (rd1 rd2 : Input) :
    ∀ (rows1 rows2 : List (List Str)), List.Forall₂ SameKey rows1 rows2 →
      ∀ (p1 p2 : List (Nat × Lexed)) (fpr : Int) (rs : List Record) (line : Nat),
        p1.map Prod.snd = rows1.map Lexed.row → p2.map Prod.snd = rows2.map Lexed.row →
        (NewReader rd1).readLoop p1 fpr rs line = (NewReader rd2).readLoop p2 fpr rs line ∨
        ∃ (k n1 n2 : Nat), (p1.map Prod.fst)[k]? = some n1 ∧ (p2.map Prod.fst)[k]? = some n2 ∧
          (NewReader rd1).readLoop p1 fpr rs line =
            ([], some (ReadError.csv (CsvErr.fieldCount n1))) ∧
          (NewReader rd2).readLoop p2 fpr rs line =
            ([], some (ReadError.csv (CsvErr.fieldCount n2))) := by
  intro rows1 rows2 h
  induction h with
  | nil =>
    intro p1 p2 fpr rs line h1 h2
    have e1 : p1 = [] := by simpa using h1
    have e2 : p2 = [] := by simpa using h2
    subst e1; subst e2
    left
    simp [defaultReader.readLoop]
  | @cons r1 r2 rows1 rows2 hkey _ ih =>
    intro p1 p2 fpr rs line h1 h2
    cases p1 with
    | nil => simp at h1
    | cons x1 p1 =>
      cases p2 with
      | nil => simp at h2
      | cons x2 p2 =>
        obtain ⟨n1, l1⟩ := x1
        obtain ⟨n2, l2⟩ := x2
        simp only [List.map_cons, List.cons.injEq] at h1 h2
        obtain ⟨e1, h1⟩ := h1
        obtain ⟨e2, h2⟩ := h2
        subst e1; subst e2
        obtain ⟨hl, hk0, hk2, hk3⟩ := hkey
        have shift : ∀ (q1 q2 : List Record × Option ReadError),
            (q1 = q2 ∨ ∃ (k n1 n2 : Nat), (p1.map Prod.fst)[k]? = some n1 ∧
              (p2.map Prod.fst)[k]? = some n2 ∧
              q1 = ([], some (ReadError.csv (CsvErr.fieldCount n1))) ∧
              q2 = ([], some (ReadError.csv (CsvErr.fieldCount n2)))) →
            (q1 = q2 ∨ ∃ (k m1 m2 : Nat), (((n1, Lexed.row r1) :: p1).map Prod.fst)[k]? = some m1 ∧
              (((n2, Lexed.row r2) :: p2).map Prod.fst)[k]? = some m2 ∧
              q1 = ([], some (ReadError.csv (CsvErr.fieldCount m1))) ∧
              q2 = ([], some (ReadError.csv (CsvErr.fieldCount m2)))) := by
          rintro q1 q2 (h | ⟨k, m1, m2, a1, a2, b1, b2⟩)
          · exact Or.inl h
          · exact Or.inr ⟨k + 1, m1, m2, by simpa using a1, by simpa using a2, b1, b2⟩
        rcases checkFields_cases n1 fpr r1 with ⟨c0, c1, c2⟩ | ⟨c1, c2⟩
        · have c3 : checkFields n2 fpr (Lexed.row r2) =
              (Lexed.fail (CsvErr.fieldCount n2), fpr) := by
            rcases checkFields_cases n2 fpr r2 with ⟨_, _, d⟩ | ⟨d, _⟩
            · exact d
            · exact absurd ⟨c0, by rw [← hl]; exact c1⟩ d
          right
          refine ⟨0, n1, n2, by simp, by simp, ?_, ?_⟩
          · rw [defaultReader.readLoop, c2]
          · rw [defaultReader.readLoop, c3]
        · have c3 : checkFields n2 fpr (Lexed.row r2) =
              (Lexed.row r2, if fpr = 0 then (r1.length : Int) else fpr) := by
            rcases checkFields_cases n2 fpr r2 with ⟨d0, d1, _⟩ | ⟨_, d⟩
            · exact absurd ⟨d0, by rw [hl]; exact d1⟩ c1
            · rw [d, hl]
          rw [defaultReader.readLoop, c2, defaultReader.readLoop, c3]
          simp only [← hl, ← hk0, ← hk2, ← hk3, parseAmount_any_reader rd2 rd1]
          by_cases h4 : r1.length < 4
          · simp only [if_pos h4]
            exact shift _ _ (ih p1 p2 _ _ _ h1 h2)
          · simp only [if_neg h4]
            rcases ht : timeParse (r1.getD 0 []) with ⟨t, _ | e⟩
            · simp only []
              rcases ha : (NewReader rd1).parseAmount (r1.getD 3 []) with ⟨a, _ | e⟩
              · simp only []
                exact shift _ _ (ih p1 p2 _ _ _ h1 h2)
              · exact Or.inl rfl
            · exact Or.inl rfl

/-- The loop depends on the reader through its replacer only. -/
theorem readLoop_any_reader (rd1 rd2 : Input) :
    ∀ (p : List (Nat × Lexed)) (fpr : Int) (rs : List Record) (line : Nat),
      (NewReader rd1).readLoop p fpr rs line = (NewReader rd2).readLoop p fpr rs line := by
  intro p
  induction p with
  | nil => intro fpr rs line; simp [defaultReader.readLoop]
  | cons x p ih =>
    intro fpr rs line
    obtain ⟨n, l⟩ := x
    rw [defaultReader.readLoop, defaultReader.readLoop]
    simp only [parseAmount_any_reader rd1 rd2, ih]

/-- Stripping an amount text of any shape leaves its sign and its digits. -/
theorem strip_anyAmountText (neg : Bool) (groups : List Str) (frac : Option Str)
    (hg : ∀ g ∈ groups, ∀ c ∈ g, isDigit c = true)
    (hf : ∀ c ∈ fractionDigits frac, isDigit c = true) :
    stripSeparators (anyAmountText neg groups frac) =
      (if neg then ['-'] else []) ++ (ungrouped groups ++ fractionDigits frac) := by
  cases frac with
  | none =>
    simp only [anyAmountText, fractionDigits, strip_append, strip_grouped groups hg,
      List.append_nil]
    congr 1
    cases neg <;> rfl
  | some f => exact strip_decimalText neg groups f hg hf

/-! ## The claims -/

/-- C1: for every well-formed amount text (an optional leading `-`, decimal
digits optionally grouped with `,`, then `.`, then exactly two fractional
digits) whose value in minor units fits in a signed 64-bit integer,
`parseAmount` succeeds and returns the decimal value multiplied by 100,
as an integer.  `Read` on the row `02.01.2024;ignored;Groceries;1,234.56`
returns the one record with date 2024-01-02 (at midnight), text
`Groceries` and amount 123456, and on `02.01.2024;ignored;Refund;-50.00`
the one record with amount -5000. -/
theorem parseAmount_wellFormed (rd : Input) (neg : Bool) (groups : List Str) (d1 d2 : Char)
    (hg : ∀ g ∈ groups, ∀ c ∈ g, isDigit c = true)
    (h1 : isDigit d1 = true) (h2 : isDigit d2 = true)
    (hlo : -(2 ^ 63) ≤ minorUnits neg groups d1 d2)
    (hhi : minorUnits neg groups d1 d2 ≤ 2 ^ 63 - 1) :
    ((NewReader rd).parseAmount (amountText neg groups d1 d2) =
        (minorUnits neg groups d1 d2, none) ∧
      ((minorUnits neg groups d1 d2 : Int) : ℚ) = 100 * decimalValue neg groups d1 d2) ∧
    (NewReader (Input.ofString "02.01.2024;ignored;Groceries;1,234.56\n")).Read =
      ([{ Time := ⟨2024, 1, 2, 0, 0, 0, 0⟩, Text := "Groceries".toList, Amount := 123456 }],
        none) ∧
    (NewReader (Input.ofString "02.01.2024;ignored;Refund;-50.00\n")).Read =
      ([{ Time := ⟨2024, 1, 2, 0, 0, 0, 0⟩, Text := "Refund".toList, Amount := -5000 }],
        none) :=
  ⟨⟨parseAmount_amountText rd neg groups d1 d2 hg h1 h2 hlo hhi,
    minorUnits_eq_decimal neg groups d1 d2⟩, by decide, by decide⟩

/-- The text `-1,234.56` is a well-formed amount of -123456 minor units, and
`parseAmount` returns -123456 on it. -/
theorem parseAmount_wellFormed_witness :
    amountText true ["1".toList, "234".toList] '5' '6' = "-1,234.56".toList ∧
    minorUnits true ["1".toList, "234".toList] '5' '6' = -123456 ∧
    (NewReader (Input.ofString "")).parseAmount "-1,234.56".toList = (-123456, none) :=
  ⟨by decide, by decide,
    (parseAmount_wellFormed (Input.ofString "") true ["1".toList, "234".toList] '5' '6'
      (by decide) (by decide) (by decide) (by decide) (by decide)).1.1⟩

/-- Rows of one width: for every input that the CSV reader reads as N rows and
no error, the rows all having the same number of fields and each of them
well formed (at least four fields, a valid `DD.MM.YYYY` date in field 0, a
valid two-decimal amount in field 3), `Read` returns no error and exactly
the N records built from the rows, in the order of the rows. -/
theorem read_uniform_wellFormed_rows (rd : Input) (rows : List (List Str)) (recs : List Record)
    (w : Nat) (hlex : csvRecords rd = rows.map Lexed.row)
    (hw : ∀ r ∈ rows, r.length = w)
    (hv : List.Forall₂ WellFormedRow rows recs) :
    (NewReader rd).Read = (recs, none) ∧ recs.length = rows.length := by
  have hy : List.Forall₂ (Yields rd) rows recs := hv.imp (fun _ _ h => wellFormed_yields rd h)
  obtain ⟨fpr2, _, heq⟩ :=
    readLoop_rows rd w [] rows recs hy hw (csvLexed rd) 0 [] 0 hlex (Or.inl rfl)
  refine ⟨?_, hv.length_eq.symm⟩
  show (NewReader rd).readLoop (csvLexed rd) 0 [] 0 = (recs, none)
  rw [List.append_nil] at heq
  rw [heq]
  simp [defaultReader.readLoop]

/-- Two well-formed rows of four fields give their two records, in order. -/
theorem read_uniform_wellFormed_rows_witness :
    (NewReader (Input.ofString "02.01.2024;a;b;1,234.56\n03.01.2024;c;d;-0.50\n")).Read =
      ([{ Time := ⟨2024, 1, 2, 0, 0, 0, 0⟩, Text := "b".toList, Amount := 123456 },
        { Time := ⟨2024, 1, 3, 0, 0, 0, 0⟩, Text := "d".toList, Amount := -50 }], none) :=
  (read_uniform_wellFormed_rows (Input.ofString "02.01.2024;a;b;1,234.56\n03.01.2024;c;d;-0.50\n")
    [["02.01.2024".toList, "a".toList, "b".toList, "1,234.56".toList],
     ["03.01.2024".toList, "c".toList, "d".toList, "-0.50".toList]]
    [{ Time := ⟨2024, 1, 2, 0, 0, 0, 0⟩, Text := "b".toList, Amount := 123456 },
     { Time := ⟨2024, 1, 3, 0, 0, 0, 0⟩, Text := "d".toList, Amount := -50 }]
    4 (by decide) (by decide)
    (List.Forall₂.cons
      ⟨by decide,
        ⟨2024, 1, 2, ⟨'0', '2', '0', '1', '2', '0', '2', '4', by decide⟩, by decide, rfl⟩,
        rfl,
        ⟨false, ["1".toList, "234".toList], '5', '6', by decide⟩⟩
      (List.Forall₂.cons
        ⟨by decide,
          ⟨2024, 1, 3, ⟨'0', '3', '0', '1', '2', '0', '2', '4', by decide⟩, by decide, rfl⟩,
          rfl,
          ⟨true, ["0".toList], '5', '0', by decide⟩⟩
        List.Forall₂.nil))).1

/-- C2: the code at two well-formed rows of differing width.  The input below
is read as two well-formed rows, of four and of five fields, and `Read`
returns the field-count error of the CSV reader and no record, where the
claim has the two records of the rows.  `Read` skips the rows of fewer than
four fields and reads the fields 0, 2 and 3 of any longer row, but it leaves
`FieldsPerRecord` at zero, so the CSV reader rejects every row that has not
as many fields as the first. -/
theorem ragged_rows_field_count_error :
    csvRecords (Input.ofString "02.01.2024;a;b;1.00\n03.01.2024;c;d;2.00;e\n") =
      [Lexed.row ["02.01.2024".toList, "a".toList, "b".toList, "1.00".toList],
       Lexed.row ["03.01.2024".toList, "c".toList, "d".toList, "2.00".toList, "e".toList]] ∧
    WellFormedRow ["02.01.2024".toList, "a".toList, "b".toList, "1.00".toList]
      { Time := ⟨2024, 1, 2, 0, 0, 0, 0⟩, Text := "b".toList, Amount := 100 } ∧
    WellFormedRow ["03.01.2024".toList, "c".toList, "d".toList, "2.00".toList, "e".toList]
      { Time := ⟨2024, 1, 3, 0, 0, 0, 0⟩, Text := "d".toList, Amount := 200 } ∧
    (NewReader (Input.ofString "02.01.2024;a;b;1.00\n03.01.2024;c;d;2.00;e\n")).Read =
      ([], some (ReadError.csv (CsvErr.fieldCount 2))) :=
  ⟨by decide,
    ⟨by decide,
      ⟨2024, 1, 2, ⟨'0', '2', '0', '1', '2', '0', '2', '4', by decide⟩, by decide, rfl⟩,
      rfl, ⟨false, ["1".toList], '0', '0', by decide⟩⟩,
    ⟨by decide,
      ⟨2024, 1, 3, ⟨'0', '3', '0', '1', '2', '0', '2', '4', by decide⟩, by decide, rfl⟩,
      rfl, ⟨false, ["2".toList], '0', '0', by decide⟩⟩,
    by decide⟩

/-- C3: the code at the scenario of the claim.  The short row `a;b` followed
by a valid row of four fields is read as these two rows, and `Read`
returns the field-count error of the CSV reader and no record, where the
claim has the record of the valid row; so it does with the short row
after the valid one, while the valid row alone gives its record. -/
theorem short_row_then_valid_row_fails :
    csvRecords (Input.ofString "a;b\n02.01.2024;ignored;Groceries;1,234.56\n") =
      [Lexed.row ["a".toList, "b".toList],
       Lexed.row ["02.01.2024".toList, "ignored".toList, "Groceries".toList,
         "1,234.56".toList]] ∧
    (NewReader (Input.ofString "a;b\n02.01.2024;ignored;Groceries;1,234.56\n")).Read =
      ([], some (ReadError.csv (CsvErr.fieldCount 2))) ∧
    (NewReader (Input.ofString "02.01.2024;ignored;Groceries;1,234.56\na;b\n")).Read =
      ([], some (ReadError.csv (CsvErr.fieldCount 2))) ∧
    (NewReader (Input.ofString "02.01.2024;ignored;Groceries;1,234.56\n")).Read =
      ([{ Time := ⟨2024, 1, 2, 0, 0, 0, 0⟩, Text := "Groceries".toList, Amount := 123456 }],
        none) :=
  ⟨by decide, by decide, by decide, by decide⟩

/-- Rows of one width: for every input in which the k-th row read from the
stream has at least four fields and a field 0 that is not a valid `DD.MM.YYYY`
date, and every earlier row is well formed and has as many fields as the
k-th, `Read` returns no record and the date error that carries the row
number k and the text of that field 0.  Here `k = pre.length + 1`. -/
theorem read_invalid_time_row (rd : Input) (pre : List (List Str)) (recs : List Record)
    (bad : List Str) (tail : List Lexed)
    (hlex : csvRecords rd = pre.map Lexed.row ++ Lexed.row bad :: tail)
    (h4 : 4 ≤ bad.length)
    (hw : ∀ r ∈ pre, r.length = bad.length)
    (hv : List.Forall₂ WellFormedRow pre recs)
    (hbad : ¬ IsValidDateText (bad.getD 0 [])) :
    ∃ cause, (NewReader rd).Read =
      ([], some (ReadError.invalidTime (pre.length + 1) (bad.getD 0 []) cause)) := by
  have hy : List.Forall₂ (Yields rd) pre recs := hv.imp (fun _ _ h => wellFormed_yields rd h)
  obtain ⟨l1, n, l2, e, h1, _⟩ := lexed_split (csvLexed rd) _ _ _ hlex
  obtain ⟨fpr2, hf2, heq⟩ :=
    readLoop_rows rd bad.length ((n, Lexed.row bad) :: l2) pre recs hy hw l1 0 [] 0 h1
      (Or.inl rfl)
  obtain ⟨cause, hc⟩ :=
    readLoop_bad_time rd bad bad.length h4 rfl fpr2 hf2 hbad n l2 ([] ++ recs) (0 + pre.length)
  refine ⟨cause, ?_⟩
  show (NewReader rd).readLoop (csvLexed rd) 0 [] 0 = _
  rw [e, heq, hc, Nat.zero_add]

/-- After one well-formed row, the row with the date `32.01.2024` gives the
date error of row 2. -/
theorem read_invalid_time_row_witness :
    ∃ cause, (NewReader (Input.ofString
        "02.01.2024;a;b;1.00\n32.01.2024;c;d;2.00\n03.01.2024;e;f;3.00\n")).Read =
      ([], some (ReadError.invalidTime 2 "32.01.2024".toList cause)) :=
  read_invalid_time_row
    (Input.ofString "02.01.2024;a;b;1.00\n32.01.2024;c;d;2.00\n03.01.2024;e;f;3.00\n")
    [["02.01.2024".toList, "a".toList, "b".toList, "1.00".toList]]
    [{ Time := ⟨2024, 1, 2, 0, 0, 0, 0⟩, Text := "b".toList, Amount := 100 }]
    ["32.01.2024".toList, "c".toList, "d".toList, "2.00".toList]
    [Lexed.row ["03.01.2024".toList, "e".toList, "f".toList, "3.00".toList]]
    (by decide) (by decide) (by decide)
    (List.Forall₂.cons
      ⟨by decide,
        ⟨2024, 1, 2, ⟨'0', '2', '0', '1', '2', '0', '2', '4', by decide⟩, by decide, rfl⟩,
        rfl, ⟨false, ["1".toList], '0', '0', by decide⟩⟩
      List.Forall₂.nil)
    (not_valid_of_timeParse_error (by decide))

/-- C4: the code at a short row followed by a row with an invalid date.  The
second row read has four fields and a field 0 that is not a valid date, the
only earlier row is short, and `Read` returns the field-count error of the
CSV reader, where the claim has the date error of row 2.  `Read` counts the
short row and skips it, but it leaves `FieldsPerRecord` at zero, so the CSV
reader rejects the row of four fields that follows a row of two. -/
theorem short_row_hides_invalid_time :
    csvRecords (Input.ofString "a;b\n32.01.2024;c;d;2.00\n") =
      [Lexed.row ["a".toList, "b".toList],
       Lexed.row ["32.01.2024".toList, "c".toList, "d".toList, "2.00".toList]] ∧
    ¬ IsValidDateText "32.01.2024".toList ∧
    (NewReader (Input.ofString "a;b\n32.01.2024;c;d;2.00\n")).Read =
      ([], some (ReadError.csv (CsvErr.fieldCount 2))) :=
  ⟨by decide, not_valid_of_timeParse_error (by decide), by decide⟩

/-- Rows of one width: for every input in which the k-th row read from the
stream has at least four fields, a valid date, and a field 3 that, once every `.`
and `,` is removed, holds a character that is not a decimal digit (after
its one optional sign), and every earlier row is well formed and has as
many fields as the k-th, `Read` returns no record and the amount error
that carries the row number k and the text of that field 3.  Here
`k = pre.length + 1`. -/
theorem read_invalid_amount_row (rd : Input) (pre : List (List Str)) (recs : List Record)
    (bad : List Str) (tail : List Lexed)
    (hlex : csvRecords rd = pre.map Lexed.row ++ Lexed.row bad :: tail)
    (h4 : 4 ≤ bad.length)
    (hw : ∀ r ∈ pre, r.length = bad.length)
    (hv : List.Forall₂ WellFormedRow pre recs)
    (hdate : IsValidDateText (bad.getD 0 []))
    (hbad : ∃ c ∈ numeralBody (stripSeparators (bad.getD 3 [])), isDigit c = false) :
    ∃ cause, (NewReader rd).Read =
      ([], some (ReadError.invalidAmount (pre.length + 1) (bad.getD 3 []) cause)) := by
  have hy : List.Forall₂ (Yields rd) pre recs := hv.imp (fun _ _ h => wellFormed_yields rd h)
  obtain ⟨l1, n, l2, e, h1, _⟩ := lexed_split (csvLexed rd) _ _ _ hlex
  obtain ⟨fpr2, hf2, heq⟩ :=
    readLoop_rows rd bad.length ((n, Lexed.row bad) :: l2) pre recs hy hw l1 0 [] 0 h1
      (Or.inl rfl)
  obtain ⟨cause, hc⟩ :=
    readLoop_bad_amount rd bad bad.length h4 rfl fpr2 hf2 hdate (not_numeral_of_nondigit hbad)
      n l2 ([] ++ recs) (0 + pre.length)
  refine ⟨cause, ?_⟩
  show (NewReader rd).readLoop (csvLexed rd) 0 [] 0 = _
  rw [e, heq, hc, Nat.zero_add]

/-- After one well-formed row, the row with the amount `2x.00` gives the
amount error of row 2. -/
theorem read_invalid_amount_row_witness :
    ∃ cause, (NewReader (Input.ofString
        "02.01.2024;a;b;1.00\n03.01.2024;c;d;2x.00\n04.01.2024;e;f;3.00\n")).Read =
      ([], some (ReadError.invalidAmount 2 "2x.00".toList cause)) :=
  read_invalid_amount_row
    (Input.ofString "02.01.2024;a;b;1.00\n03.01.2024;c;d;2x.00\n04.01.2024;e;f;3.00\n")
    [["02.01.2024".toList, "a".toList, "b".toList, "1.00".toList]]
    [{ Time := ⟨2024, 1, 2, 0, 0, 0, 0⟩, Text := "b".toList, Amount := 100 }]
    ["03.01.2024".toList, "c".toList, "d".toList, "2x.00".toList]
    [Lexed.row ["04.01.2024".toList, "e".toList, "f".toList, "3.00".toList]]
    (by decide) (by decide) (by decide)
    (List.Forall₂.cons
      ⟨by decide,
        ⟨2024, 1, 2, ⟨'0', '2', '0', '1', '2', '0', '2', '4', by decide⟩, by decide, rfl⟩,
        rfl, ⟨false, ["1".toList], '0', '0', by decide⟩⟩
      List.Forall₂.nil)
    ⟨2024, 1, 3, ⟨'0', '3', '0', '1', '2', '0', '2', '4', by decide⟩, by decide⟩
    ⟨'x', by decide, by decide⟩

/-- C5: the code at a short row followed by a row with an invalid amount.  The
second row read has four fields, a valid date and the amount `2x.00`, the
only earlier row is short, and `Read` returns the field-count error of the
CSV reader, where the claim has the amount error of row 2.  `Read` counts
the short row and skips it, but it leaves `FieldsPerRecord` at zero, so the
CSV reader rejects the row of four fields that follows a row of two. -/
theorem short_row_hides_invalid_amount :
    csvRecords (Input.ofString "a;b\n03.01.2024;c;d;2x.00\n") =
      [Lexed.row ["a".toList, "b".toList],
       Lexed.row ["03.01.2024".toList, "c".toList, "d".toList, "2x.00".toList]] ∧
    IsValidDateText "03.01.2024".toList ∧
    (∃ c ∈ numeralBody (stripSeparators "2x.00".toList), isDigit c = false) ∧
    (NewReader (Input.ofString "a;b\n03.01.2024;c;d;2x.00\n")).Read =
      ([], some (ReadError.csv (CsvErr.fieldCount 2))) :=
  ⟨by decide, ⟨2024, 1, 3, ⟨'0', '3', '0', '1', '2', '0', '2', '4', by decide⟩, by decide⟩,
    ⟨'x', by decide, by decide⟩, by decide⟩

/-- C6: for every input, if `Read` returns an error (of the CSV reader or of
the stream under it, a date error or an amount error), the records it
returns are `nil`: the records built from earlier rows are not returned. -/
theorem read_error_no_records (rd : Input) (h : (NewReader rd).Read.2 ≠ none) :
    (NewReader rd).Read.1 = [] :=
  readLoop_error_nil rd (csvLexed rd) 0 [] 0 h

/-- A valid row followed by a row with a quote that is not closed: `Read`
returns the error of the CSV reader, and no record. -/
theorem read_error_no_records_witness :
    (NewReader (Input.ofString "02.01.2024;a;b;1.00\n03.01.2024;c;d;\"2.00\n")).Read.2 =
      some (ReadError.csv CsvErr.quote) ∧
    (NewReader (Input.ofString "02.01.2024;a;b;1.00\n03.01.2024;c;d;\"2.00\n")).Read.1 = [] :=
  ⟨by decide,
    read_error_no_records
      (Input.ofString "02.01.2024;a;b;1.00\n03.01.2024;c;d;\"2.00\n") (by decide)⟩

/-- C7: the code at the amounts of one digit.  `FormatInt 0` is `0`, of length
one, so the offset `len(s) - 2` is negative and `StringAmount` has no
result for the amounts 0, 5 and 9: there is no text to parse again, where
the claim has the round trip return the amount.  (The text `0,00` would
parse as 0.) -/
theorem stringAmount_one_digit_no_result :
    FormatInt 0 = "0".toList ∧
    (Record.mk (Date 2024 1 2) "Groceries".toList 0).StringAmount = none ∧
    (Record.mk (Date 2024 1 2) "Groceries".toList 5).StringAmount = none ∧
    (Record.mk (Date 2024 1 2) "Groceries".toList 9).StringAmount = none ∧
    (NewReader (Input.ofString "")).parseAmount "0,00".toList = (0, none) := by
  decide

/-- C8: `parseAmount` returns an error exactly when the text, once every `.`
and `,` is removed, is not a base-10 signed 64-bit numeral: nothing is
left after the one optional sign (the text is empty or only a sign), a
character other than a decimal digit follows the optional sign, or the
value is outside `-2^63 .. 2^63-1`.  In every other case it succeeds, and
returns the value of the numeral. -/
theorem parseAmount_error_iff (rd : Input) (s : Str) :
    (((NewReader rd).parseAmount s).2 ≠ none ↔
      (numeralBody (stripSeparators s) = [] ∨
        (∃ c ∈ numeralBody (stripSeparators s), isDigit c = false) ∨
        numeralValue (stripSeparators s) < -(2 ^ 63) ∨
        2 ^ 63 - 1 < numeralValue (stripSeparators s))) ∧
    (((NewReader rd).parseAmount s).2 = none →
      (NewReader rd).parseAmount s = (numeralValue (stripSeparators s), none)) := by
  by_cases hn : IsInt64Numeral (stripSeparators s)
  · have hok := parseAmount_ok rd s _ ((ParseInt_spec _).1 hn)
    refine ⟨?_, fun _ => hok⟩
    rw [← not_numeral_iff]
    constructor
    · intro h; rw [hok] at h; exact absurd rfl h
    · intro h; exact absurd hn h
  · obtain ⟨e, he, _⟩ := parseAmount_err rd s ((ParseInt_spec _).2 hn)
    refine ⟨?_, fun h => ?_⟩
    · rw [← not_numeral_iff]
      constructor
      · intro _; exact hn
      · intro _; rw [he]; simp
    · rw [he] at h; cases h

/-- The text `1,2a.50` leaves `12a50`, where `a` is no digit: `parseAmount`
returns an error. -/
theorem parseAmount_error_iff_witness :
    ((NewReader (Input.ofString "")).parseAmount "1,2a.50".toList).2 ≠ none :=
  (parseAmount_error_iff (Input.ofString "") "1,2a.50".toList).1.mpr
    (Or.inr (Or.inl ⟨'a', by decide, by decide⟩))

/-- C9: every record of a successful `Read` comes from a row of four fields
or more whose field 0 is `DD.MM.YYYY` for a real calendar date (month
1..12, day within the month, leap years respected), and its `Time` is that
day, month and year at 00:00:00.  A row of four fields or more whose
field 0 is not such a date makes the whole `Read` fail; `31.02.2024` and
`2.1.2024` are not such dates, and `Read` fails on them with the date
error of row 1. -/
theorem read_time_valid (rd : Input) :
    (∀ recs, (NewReader rd).Read = (recs, none) →
      ∃ rows, csvRecords rd = rows.map Lexed.row ∧
        List.Forall₂
          (fun row rec => ∃ y m d, IsDateText (row.getD 0 []) y m d ∧ ValidDate y m d ∧
            rec.Time = ⟨y, m, d, 0, 0, 0, 0⟩)
          (dataRows rows) recs) ∧
    (∀ row, Lexed.row row ∈ csvRecords rd → 4 ≤ row.length →
      ¬ IsValidDateText (row.getD 0 []) → (NewReader rd).Read.2 ≠ none) ∧
    (¬ IsValidDateText "31.02.2024".toList ∧ ¬ IsValidDateText "2.1.2024".toList) ∧
    (NewReader (Input.ofString "31.02.2024;ignored;Groceries;1,234.56\n")).Read =
      ([], some (ReadError.invalidTime 1 "31.02.2024".toList TimeErr.dayRange)) ∧
    (NewReader (Input.ofString "2.1.2024;ignored;Groceries;1,234.56\n")).Read =
      ([], some (ReadError.invalidTime 1 "2.1.2024".toList TimeErr.bad)) := by
  refine ⟨?_, ?_, ⟨not_valid_of_timeParse_error (by decide),
    not_valid_of_timeParse_error (by decide)⟩, by decide, by decide⟩
  · intro recs h
    obtain ⟨rows, hp, hf⟩ := read_success rd recs h
    refine ⟨rows, hp, hf.imp ?_⟩
    rintro row rec ⟨_, ht, _, _⟩
    obtain ⟨y, m, d, hs, hv, hd⟩ := timeParse_ok ht
    exact ⟨y, m, d, hs, hv, hd⟩
  · intro row hmem h4 hbad hnone
    rcases hr : (NewReader rd).Read with ⟨recs, e⟩
    rw [hr] at hnone
    cases e with
    | some e => cases hnone
    | none =>
      obtain ⟨rows, hp, hf⟩ := read_success rd recs hr
      rw [hp] at hmem
      obtain ⟨r, hr1, hr2⟩ := List.mem_map.mp hmem
      cases hr2
      have hdata : row ∈ dataRows rows := by
        simp only [dataRows, List.mem_filter, decide_eq_true_eq]
        exact ⟨hr1, h4⟩
      obtain ⟨rec, _, ⟨_, ht, _, _⟩⟩ := forall₂_mem_left hf row hdata
      obtain ⟨y, m, d, hs, hv, _⟩ := timeParse_ok ht
      exact hbad ⟨y, m, d, hs, hv⟩

/-- The row with the date `29.02.2023` makes `Read` fail. -/
theorem read_time_valid_witness :
    (NewReader (Input.ofString "02.01.2024;a;b;1.00\n29.02.2023;c;d;2.00\n")).Read.2 ≠ none :=
  (read_time_valid (Input.ofString "02.01.2024;a;b;1.00\n29.02.2023;c;d;2.00\n")).2.1
    ["29.02.2023".toList, "c".toList, "d".toList, "2.00".toList]
    (by decide) (by decide) (not_valid_of_timeParse_error (by decide))

/-- C10: the `Text` of every record of a successful `Read` is field 2 of its
row, as the CSV reader delivers it.  A field 2 written without quotes is
taken as it is, whatever its characters (other than `;`, the quote and the
line ends), blanks at either end and the empty text included; a field 2
written in quotes is taken whole, `;` and line ends included, without the
quotes, and a doubled quote in it is one quote. -/
theorem read_text_verbatim (rd : Input) :
    (∀ recs, (NewReader rd).Read = (recs, none) →
      ∃ rows, csvRecords rd = rows.map Lexed.row ∧
        List.Forall₂ (fun row rec => rec.Text = row.getD 2 []) (dataRows rows) recs) ∧
    (∀ t : Str, (∀ c ∈ t, c ≠ ';' ∧ c ≠ '\n' ∧ c ≠ '"' ∧ c ≠ '\r') →
      (NewReader ⟨"02.01.2024;x;".toList ++ t ++ ";1.00\n".toList, false⟩).Read =
        ([{ Time := ⟨2024, 1, 2, 0, 0, 0, 0⟩, Text := t, Amount := 100 }], none)) ∧
    (∀ t : Str, (∀ c ∈ t, c ≠ '"' ∧ c ≠ '\r') →
      (NewReader ⟨"02.01.2024;x;\"".toList ++ t ++ "\";1.00\n".toList, false⟩).Read =
        ([{ Time := ⟨2024, 1, 2, 0, 0, 0, 0⟩, Text := t, Amount := 100 }], none)) ∧
    (NewReader (Input.ofString "02.01.2024;x;  two  words \t;1.00\n")).Read =
      ([{ Time := ⟨2024, 1, 2, 0, 0, 0, 0⟩, Text := "  two  words \t".toList, Amount := 100 }],
        none) ∧
    (NewReader (Input.ofString "02.01.2024;x;;1.00\n")).Read =
      ([{ Time := ⟨2024, 1, 2, 0, 0, 0, 0⟩, Text := [], Amount := 100 }], none) ∧
    (NewReader (Input.ofString "02.01.2024;x;\" a;b\nc \"\"d\"\" \";1.00\n")).Read =
      ([{ Time := ⟨2024, 1, 2, 0, 0, 0, 0⟩, Text := " a;b\nc \"d\" ".toList, Amount := 100 }],
        none) := by
  refine ⟨?_, ?_, ?_, by decide, by decide, by decide⟩
  · intro recs h
    obtain ⟨rows, hp, hf⟩ := read_success rd recs h
    exact ⟨rows, hp, hf.imp (fun _ _ hy => hy.2.2.1)⟩
  · intro t ht
    exact read_single_row _ t (csvRecords_plain_text t ht)
  · intro t ht
    exact read_single_row _ t (csvRecords_quoted_text t ht)

/-- The quoted field with blanks, `;` and a line end in it is the `Text` of the
record. -/
theorem read_text_verbatim_witness :
    (NewReader ⟨"02.01.2024;x;\"".toList ++ " a;\nb ".toList ++ "\";1.00\n".toList, false⟩).Read =
      ([{ Time := ⟨2024, 1, 2, 0, 0, 0, 0⟩, Text := " a;\nb ".toList, Amount := 100 }], none) :=
  (read_text_verbatim (Input.ofString "")).2.2.1 " a;\nb ".toList (by decide)

/-- C11: the code at numerals of one digit.  For the amount -5 `StringAmount`
returns `,-5`: the separator comes before the sign and is followed by the
sign and one digit, not by two digits; for the amounts 0 and 7 it has no
result (the slice panics).  From two digits on the separator is where the
claim has it: `1234,56` for 123456 and `-50,00` for -5000. -/
theorem stringAmount_short_numeral :
    (Record.mk (Date 2024 1 2) "Refund".toList (-5)).StringAmount = some ",-5".toList ∧
    (Record.mk (Date 2024 1 2) "Refund".toList 0).StringAmount = none ∧
    (Record.mk (Date 2024 1 2) "Refund".toList 7).StringAmount = none ∧
    (Record.mk (Date 2024 1 2) "Refund".toList 123456).StringAmount = some "1234,56".toList ∧
    (Record.mk (Date 2024 1 2) "Refund".toList (-5000)).StringAmount = some "-50,00".toList := by
  decide

/-- C12, amended: for every amount text that holds at least one digit and
whose digits spell a value within the 64-bit range, whatever the number of
its fractional digits and with or without a decimal separator (an optional
`-`, digits optionally grouped with `,`, then nothing or `.` and the
fractional digits), `parseAmount` does not fail: it returns the integer
spelled by the digits that are left, which is the decimal value times 10 to
the number of fractional digits.  For every text made only of decimal
digits (at least one, value within int64) it returns that integer itself;
`1` parses as 1 and `1.5` as 15. -/
theorem parseAmount_other_fraction (rd : Input) (neg : Bool) (groups : List Str)
    (frac : Option Str)
    (hg : ∀ g ∈ groups, ∀ c ∈ g, isDigit c = true)
    (hf : ∀ c ∈ fractionDigits frac, isDigit c = true)
    (hne : ungrouped groups ++ fractionDigits frac ≠ [])
    (hlo : -(2 ^ 63) ≤ spelledValue neg groups (fractionDigits frac))
    (hhi : spelledValue neg groups (fractionDigits frac) ≤ 2 ^ 63 - 1) :
    ((NewReader rd).parseAmount (anyAmountText neg groups frac) =
        (spelledValue neg groups (fractionDigits frac), none) ∧
      ((spelledValue neg groups (fractionDigits frac) : Int) : ℚ) =
        decimalValueOf neg groups (fractionDigits frac) *
          10 ^ (fractionDigits frac).length) ∧
    (∀ ds : Str, ds ≠ [] → (∀ c ∈ ds, isDigit c = true) → (digitsVal 0 ds : Int) ≤ 2 ^ 63 - 1 →
      (NewReader rd).parseAmount ds = ((digitsVal 0 ds : Int), none)) ∧
    (NewReader rd).parseAmount "1".toList = (1, none) ∧
    (NewReader rd).parseAmount "1.5".toList = (15, none) := by
  refine ⟨⟨?_, spelledValue_eq_decimal neg groups (fractionDigits frac)⟩, ?_, ?_, ?_⟩
  · have hd : ∀ c ∈ ungrouped groups ++ fractionDigits frac, isDigit c = true := by
      intro c hc
      rcases List.mem_append.mp hc with hc | hc
      · exact ungrouped_digits groups hg c hc
      · exact hf c hc
    exact parseAmount_signed_digits rd _ neg _ (strip_anyAmountText neg groups frac hg hf)
      hne hd hlo hhi
  · intro ds hne2 hd hr
    have := parseAmount_signed_digits rd ds false ds
      (by rw [strip_digits ds hd]; rfl) hne2 hd
      (by simp only [Bool.false_eq_true, if_false]; omega)
      (by simp only [Bool.false_eq_true, if_false]; exact hr)
    simpa using this
  · exact parseAmount_ok rd _ _ (by decide)
  · exact parseAmount_ok rd _ _ (by decide)

/-- The text `-1,234`, with a sign and a group and no decimal separator, is an
amount text and parses as -1234. -/
theorem parseAmount_other_fraction_witness :
    anyAmountText true ["1".toList, "234".toList] none = "-1,234".toList ∧
    (NewReader (Input.ofString "")).parseAmount "-1,234".toList = (-1234, none) :=
  ⟨by decide,
    (parseAmount_other_fraction (Input.ofString "") true ["1".toList, "234".toList] none
      (by decide) (by decide) (by decide) (by decide) (by decide)).1.1⟩

/-- C12 as stated fails: the text `99999999999999999999.5` is an amount text
with one fractional digit, and `parseAmount` fails on it with the range
error, because its digits spell a number above `2^63 - 1`. -/
theorem long_amount_text_out_of_range :
    anyAmountText false ["99999999999999999999".toList] (some "5".toList) =
      "99999999999999999999.5".toList ∧
    (∀ c ∈ "99999999999999999999".toList ++ "5".toList, isDigit c = true) ∧
    (fractionDigits (some "5".toList)).length ≠ 2 ∧
    (NewReader (Input.ofString "")).parseAmount "99999999999999999999.5".toList =
      (0, some NumErr.outOfRange) := by
  decide

/-- C13: for every text `s`, `parseAmount s` is the result of `ParseInt` (base
10, 64 bits) on `s` with every `.` and every `,` deleted: the same error when
that fails, the same value when it succeeds (with an error `parseAmount`
returns the value 0).  So two texts that are equal after the deletion give
the same result; `1,2.3.4` gives 1234 and `,-5` gives -5. -/
theorem parseAmount_eq_parse_stripped (rd : Input) (s s2 : Str) :
    (((NewReader rd).parseAmount s).2 = (ParseInt (stripSeparators s)).2 ∧
      ((ParseInt (stripSeparators s)).2 = none →
        (NewReader rd).parseAmount s = ParseInt (stripSeparators s))) ∧
    (stripSeparators s = stripSeparators s2 →
      (NewReader rd).parseAmount s = (NewReader rd).parseAmount s2) ∧
    (NewReader rd).parseAmount "1,2.3.4".toList = (1234, none) ∧
    (NewReader rd).parseAmount ",-5".toList = (-5, none) := by
  refine ⟨?_, ?_, parseAmount_ok rd _ _ (by decide), parseAmount_ok rd _ _ (by decide)⟩
  · simp only [defaultReader.parseAmount, replace_eq_strip]
    rcases hp : ParseInt (stripSeparators s) with ⟨n, e⟩
    cases e with
    | none => exact ⟨rfl, fun _ => rfl⟩
    | some e => exact ⟨rfl, fun h => by cases h⟩
  · intro h
    simp only [defaultReader.parseAmount, replace_eq_strip, h]

/-- The texts `1,2.3.4` and `12.34` are equal after the deletion and give the
same result. -/
theorem parseAmount_eq_parse_stripped_witness :
    (NewReader (Input.ofString "")).parseAmount "1,2.3.4".toList =
      (NewReader (Input.ofString "")).parseAmount "12.34".toList :=
  (parseAmount_eq_parse_stripped (Input.ofString "") "1,2.3.4".toList "12.34".toList).2.1
    (by decide)

/-- Within a row the date is validated before the amount.  For
every row of at least four fields in which field 0 is not a valid date and
field 3 is not a valid amount, when every earlier row is well formed and
has as many fields as that row, `Read` fails with the date error that
carries the number of the row and its field 0.  `Read` never returns the
amount error of a row whose date is not valid: an amount error carries the
number of a row of at least four fields with a valid date and that row's
field 3.  And the error of a row is the result whatever rows follow it: two
inputs that begin with the same rows, on which the loop already fails, give
the same result. -/
theorem read_date_before_amount (rd : Input) :
    (∀ (pre : List (List Str)) (recs : List Record) (bad : List Str) (tail : List Lexed),
      csvRecords rd = pre.map Lexed.row ++ Lexed.row bad :: tail →
      4 ≤ bad.length → (∀ r ∈ pre, r.length = bad.length) →
      List.Forall₂ WellFormedRow pre recs →
      ¬ IsValidDateText (bad.getD 0 []) →
      ¬ IsInt64Numeral (stripSeparators (bad.getD 3 [])) →
      ∃ cause, (NewReader rd).Read =
        ([], some (ReadError.invalidTime (pre.length + 1) (bad.getD 0 []) cause))) ∧
    (∀ (out : List Record) (k : Nat) (text : Str) (cause : NumErr),
      (NewReader rd).Read = (out, some (ReadError.invalidAmount k text cause)) →
      ∃ (i : Nat) (r : List Str), (csvRecords rd)[i]? = some (Lexed.row r) ∧ k = i + 1 ∧
        4 ≤ r.length ∧ IsValidDateText (r.getD 0 []) ∧ text = r.getD 3 [] ∧
        ¬ IsInt64Numeral (stripSeparators text)) ∧
    (∀ (rd2 : Input) (a b1 b2 : List (Nat × Lexed)),
      csvLexed rd = a ++ b1 → csvLexed rd2 = a ++ b2 →
      ((NewReader rd).readLoop a 0 [] 0).2 ≠ none →
      (NewReader rd2).Read = (NewReader rd).Read) := by
  refine ⟨?_, ?_, ?_⟩
  · intro pre recs bad tail hlex h4 hw hv hbad _
    have hy : List.Forall₂ (Yields rd) pre recs :=
      hv.imp (fun _ _ h => wellFormed_yields rd h)
    obtain ⟨l1, n, l2, e, h1, _⟩ := lexed_split (csvLexed rd) _ _ _ hlex
    obtain ⟨fpr2, hf2, heq⟩ :=
      readLoop_rows rd bad.length ((n, Lexed.row bad) :: l2) pre recs hy hw l1 0 [] 0 h1
        (Or.inl rfl)
    obtain ⟨cause, hc⟩ :=
      readLoop_bad_time rd bad bad.length h4 rfl fpr2 hf2 hbad n l2 ([] ++ recs)
        (0 + pre.length)
    refine ⟨cause, ?_⟩
    show (NewReader rd).readLoop (csvLexed rd) 0 [] 0 = _
    rw [e, heq, hc, Nat.zero_add]
  · intro out k text cause h
    obtain ⟨i, r, hi, hk, rest⟩ := readLoop_amount_error rd (csvLexed rd) 0 [] 0 out k text cause h
    exact ⟨i, r, hi, by omega, rest⟩
  · intro rd2 a b1 b2 e1 e2 herr
    show (NewReader rd2).readLoop (csvLexed rd2) 0 [] 0 = (NewReader rd).readLoop (csvLexed rd) 0 [] 0
    rw [e1, e2, readLoop_any_reader rd2 rd, readLoop_append_error rd b2 a 0 [] 0 herr,
      readLoop_append_error rd b1 a 0 [] 0 herr]

/-- After one well-formed row, the row with the date `xx` and the amount `yy`
gives the date error of row 2. -/
theorem read_date_before_amount_witness :
    ∃ cause, (NewReader (Input.ofString "02.01.2024;a;b;1.00\nxx;c;d;yy\n")).Read =
      ([], some (ReadError.invalidTime 2 "xx".toList cause)) :=
  (read_date_before_amount (Input.ofString "02.01.2024;a;b;1.00\nxx;c;d;yy\n")).1
    [["02.01.2024".toList, "a".toList, "b".toList, "1.00".toList]]
    [{ Time := ⟨2024, 1, 2, 0, 0, 0, 0⟩, Text := "b".toList, Amount := 100 }]
    ["xx".toList, "c".toList, "d".toList, "yy".toList] []
    (by decide) (by decide) (by decide)
    (List.Forall₂.cons
      ⟨by decide,
        ⟨2024, 1, 2, ⟨'0', '2', '0', '1', '2', '0', '2', '4', by decide⟩, by decide, rfl⟩,
        rfl, ⟨false, ["1".toList], '0', '0', by decide⟩⟩
      List.Forall₂.nil)
    (not_valid_of_timeParse_error (by decide))
    (not_numeral_of_nondigit ⟨'y', by decide, by decide⟩)

/-- C14: the code at a row of five fields after a row of four.  The second
row read has five fields, a field 0 that is not a valid date and a field 3
that is not a valid amount, the row before it is well formed, and `Read`
returns the field-count error of the CSV reader, where the claim has the
date error of the second row, the earliest offending one.  `Read` leaves
`FieldsPerRecord` at zero, so the CSV reader rejects the row before its
date is looked at. -/
theorem wide_row_hides_invalid_date :
    csvRecords (Input.ofString "02.01.2024;a;b;1.00\nxx;c;d;yy;e\n") =
      [Lexed.row ["02.01.2024".toList, "a".toList, "b".toList, "1.00".toList],
       Lexed.row ["xx".toList, "c".toList, "d".toList, "yy".toList, "e".toList]] ∧
    WellFormedRow ["02.01.2024".toList, "a".toList, "b".toList, "1.00".toList]
      { Time := ⟨2024, 1, 2, 0, 0, 0, 0⟩, Text := "b".toList, Amount := 100 } ∧
    ¬ IsValidDateText "xx".toList ∧
    ¬ IsInt64Numeral (stripSeparators "yy".toList) ∧
    (NewReader (Input.ofString "02.01.2024;a;b;1.00\nxx;c;d;yy;e\n")).Read =
      ([], some (ReadError.csv (CsvErr.fieldCount 2))) :=
  ⟨by decide,
    ⟨by decide,
      ⟨2024, 1, 2, ⟨'0', '2', '0', '1', '2', '0', '2', '4', by decide⟩, by decide, rfl⟩,
      rfl, ⟨false, ["1".toList], '0', '0', by decide⟩⟩,
    not_valid_of_timeParse_error (by decide),
    not_numeral_of_nondigit ⟨'y', by decide, by decide⟩,
    by decide⟩

/-- C15, amended: `Read` never sets the expected field count of the CSV
reader, so the field count of the first row read becomes mandatory.  For
every input in which a later row `odd` is the first whose number of fields
differs from that of the first row, and every row before it is accepted
(skipped for having fewer than four fields, or with a valid date and
amount), `Read` returns the field-count error of the CSV reader, with the
line on which `odd` starts, and no records, whatever `odd` holds. -/
theorem read_field_count_mismatch (rd : Input) (first : List Str) (mid : List (List Str))
    (odd : List Str) (tail : List Lexed)
    (hlex : csvRecords rd = (first :: mid).map Lexed.row ++ Lexed.row odd :: tail)
    (hw : ∀ r ∈ mid, r.length = first.length)
    (hacc : ∀ r ∈ first :: mid, AcceptedRow r)
    (hodd : odd.length ≠ first.length) :
    ∃ line, (recordLines rd)[mid.length + 1]? = some line ∧
      (NewReader rd).Read = ([], some (ReadError.csv (CsvErr.fieldCount line))) := by
  have hne : first ≠ [] := by
    apply csvRecords_row_ne_nil rd
    rw [hlex]; simp
  have hpos : 0 < first.length := List.length_pos.mpr hne
  have hlen : ∀ r ∈ first :: mid, r.length = first.length := by
    intro r hr
    rcases List.mem_cons.mp hr with rfl | hr
    · rfl
    · exact hw r hr
  obtain ⟨l1, n, l2, e, h1, _⟩ := lexed_split (csvLexed rd) _ _ _ hlex
  obtain ⟨recs, heq⟩ :=
    readLoop_accepted rd first.length hpos ((n, Lexed.row odd) :: l2) (first :: mid) hlen hacc
      l1 0 [] 0 h1 (Or.inl rfl)
  rw [if_neg (List.cons_ne_nil _ _)] at heq
  have hl1 : l1.length = mid.length + 1 := by
    have := congrArg List.length h1
    simpa using this
  refine ⟨n, ?_, ?_⟩
  · rw [recordLines, e, List.map_append, ← hl1]
    have : (List.map Prod.fst l1).length = l1.length := by simp
    rw [← this, List.getElem?_append_right (Nat.le_refl _)]
    simp
  · show (NewReader rd).readLoop (csvLexed rd) 0 [] 0 = _
    rw [e, heq, defaultReader.readLoop]
    rcases checkFields_cases n (first.length : Int) odd with ⟨_, _, c⟩ | ⟨c, _⟩
    · rw [c]
    · exact absurd ⟨by exact_mod_cast hpos, by exact_mod_cast hodd⟩ c

/-- After the short row `a;b` and an empty line, a valid row of four fields
gives the field-count error. -/
theorem read_field_count_mismatch_witness :
    ∃ line, (recordLines (Input.ofString "a;b\n\n02.01.2024;x;y;1.00\n"))[1]? = some line ∧
      (NewReader (Input.ofString "a;b\n\n02.01.2024;x;y;1.00\n")).Read =
        ([], some (ReadError.csv (CsvErr.fieldCount line))) :=
  read_field_count_mismatch (Input.ofString "a;b\n\n02.01.2024;x;y;1.00\n")
    ["a".toList, "b".toList] []
    ["02.01.2024".toList, "x".toList, "y".toList, "1.00".toList] []
    (by decide) (by decide)
    (by
      intro r hr
      rw [List.mem_singleton] at hr
      subst hr
      exact Or.inl (by decide))
    (by decide)

/-- C15 as stated fails: the second row has five fields where the first has
four, but the first row has the date `31.02.2024`, and `Read` returns the
date error of row 1, not the field-count error. -/
theorem earlier_date_error_wins :
    csvRecords (Input.ofString "31.02.2024;a;b;1.00\n02.01.2024;a;b;1.00;e\n") =
      [Lexed.row ["31.02.2024".toList, "a".toList, "b".toList, "1.00".toList],
       Lexed.row ["02.01.2024".toList, "a".toList, "b".toList, "1.00".toList,
         "e".toList]] ∧
    (NewReader (Input.ofString "31.02.2024;a;b;1.00\n02.01.2024;a;b;1.00;e\n")).Read =
      ([], some (ReadError.invalidTime 1 "31.02.2024".toList TimeErr.dayRange)) :=
  ⟨by decide, by decide⟩

/-- C16, amended: for two inputs read as rows, with the same number of rows,
the same number of fields in each row and the same fields 0, 2 and 3, `Read`
returns the same records and the same date or amount error, or it fails in
both on the same row with the field-count error of the CSV reader, which
carries the line on which that row starts in each input.  When the rows start
on the same lines in both inputs the results are the same. -/
theorem read_depends_on_key_fields (rd1 rd2 : Input) (rows1 rows2 : List (List Str))
    (h1 : csvRecords rd1 = rows1.map Lexed.row) (h2 : csvRecords rd2 = rows2.map Lexed.row)
    (hkey : List.Forall₂ SameKey rows1 rows2) :
    ((NewReader rd1).Read = (NewReader rd2).Read ∨
      ∃ (k n1 n2 : Nat), (recordLines rd1)[k]? = some n1 ∧ (recordLines rd2)[k]? = some n2 ∧
        (NewReader rd1).Read = ([], some (ReadError.csv (CsvErr.fieldCount n1))) ∧
        (NewReader rd2).Read = ([], some (ReadError.csv (CsvErr.fieldCount n2)))) ∧
    (recordLines rd1 = recordLines rd2 → (NewReader rd1).Read = (NewReader rd2).Read) ∧
    (NewReader rd1).Read.1 = (NewReader rd2).Read.1 := by
  have h := readLoop_sameKey rd1 rd2 rows1 rows2 hkey (csvLexed rd1) (csvLexed rd2) 0 [] 0 h1 h2
  refine ⟨h, ?_, ?_⟩
  · intro hlines
    rcases h with h | ⟨k, n1, n2, a1, a2, b1, b2⟩
    · exact h
    · have a1' : (recordLines rd1)[k]? = some n1 := a1
      have a2' : (recordLines rd2)[k]? = some n2 := a2
      rw [hlines, a2'] at a1'
      have : n2 = n1 := by simpa using a1'
      subst this
      show (NewReader rd1).readLoop (csvLexed rd1) 0 [] 0 =
        (NewReader rd2).readLoop (csvLexed rd2) 0 [] 0
      rw [b1, b2]
  · rcases h with h | ⟨k, n1, n2, _, _, b1, b2⟩
    · exact congrArg Prod.fst h
    · show ((NewReader rd1).readLoop (csvLexed rd1) 0 [] 0).1 =
        ((NewReader rd2).readLoop (csvLexed rd2) 0 [] 0).1
      rw [b1, b2]

/-- Two rows that differ in field 1 and in field 4 give the same result. -/
theorem read_depends_on_key_fields_witness :
    (NewReader (Input.ofString "02.01.2024;first;b;1.00;more\n")).Read =
      (NewReader (Input.ofString "02.01.2024;second one;b;1.00;less\n")).Read :=
  (read_depends_on_key_fields (Input.ofString "02.01.2024;first;b;1.00;more\n")
    (Input.ofString "02.01.2024;second one;b;1.00;less\n")
    [["02.01.2024".toList, "first".toList, "b".toList, "1.00".toList, "more".toList]]
    [["02.01.2024".toList, "second one".toList, "b".toList, "1.00".toList, "less".toList]]
    (by decide) (by decide)
    (List.Forall₂.cons ⟨by decide, by decide, by decide, by decide⟩ List.Forall₂.nil)).2.1
    (by decide)

/-- C16 as stated fails: the two inputs below have two rows each, of four and
of five fields, and differ only in field 1 of the first row, which holds a
line end in the first input.  `Read` fails on the second row in both, with
`record on line 3` in the first and `record on line 2` in the second. -/
theorem field_count_line_differs :
    csvRecords (Input.ofString "02.01.2024;\"x\ny\";b;1.00\n03.01.2024;c;d;2.00;e\n") =
      [Lexed.row ["02.01.2024".toList, "x\ny".toList, "b".toList, "1.00".toList],
       Lexed.row ["03.01.2024".toList, "c".toList, "d".toList, "2.00".toList, "e".toList]] ∧
    csvRecords (Input.ofString "02.01.2024;xy;b;1.00\n03.01.2024;c;d;2.00;e\n") =
      [Lexed.row ["02.01.2024".toList, "xy".toList, "b".toList, "1.00".toList],
       Lexed.row ["03.01.2024".toList, "c".toList, "d".toList, "2.00".toList, "e".toList]] ∧
    (NewReader (Input.ofString
        "02.01.2024;\"x\ny\";b;1.00\n03.01.2024;c;d;2.00;e\n")).Read =
      ([], some (ReadError.csv (CsvErr.fieldCount 3))) ∧
    (NewReader (Input.ofString "02.01.2024;xy;b;1.00\n03.01.2024;c;d;2.00;e\n")).Read =
      ([], some (ReadError.csv (CsvErr.fieldCount 2))) :=
  ⟨by decide, by decide, by decide, by decide⟩

/-- C17: `StringAmount` has a result exactly when the numeral of `Amount` has
at least two characters, that is when `Amount >= 10` or `Amount <= -1`; for
`Amount` in `0..9` the offset `len(s) - 2` is -1 and there is no result; and
`Record.String` has a result exactly when `StringAmount` has one. -/
theorem stringAmount_result_iff (r : Record) :
    (r.StringAmount.isSome = true ↔ 2 ≤ (FormatInt r.Amount).length) ∧
    (2 ≤ (FormatInt r.Amount).length ↔ (10 ≤ r.Amount ∨ r.Amount ≤ -1)) ∧
    (0 ≤ r.Amount ∧ r.Amount ≤ 9 →
      ((FormatInt r.Amount).length : Int) - 2 = -1 ∧ r.StringAmount = none) ∧
    (r.String.isSome = r.StringAmount.isSome) := by
  obtain ⟨hsmall, hbig⟩ := formatInt_length r.Amount
  have h1 : r.StringAmount.isSome = true ↔ 2 ≤ (FormatInt r.Amount).length := by
    simp only [Record.StringAmount]
    constructor
    · intro h
      by_contra hlt
      rw [if_pos (by omega)] at h
      cases h
    · intro h
      rw [if_neg (by omega)]
      rfl
  refine ⟨h1, ?_, ?_, ?_⟩
  · constructor
    · intro h
      by_contra hn
      have := hsmall (by omega)
      omega
    · intro h
      exact hbig (by omega)
  · intro h
    have hl := hsmall h
    refine ⟨by rw [hl]; rfl, ?_⟩
    simp only [Record.StringAmount]
    rw [if_pos (by omega)]
  · simp only [Record.String]
    cases r.StringAmount <;> rfl

/-- For the amount 5 neither `StringAmount` nor `String` has a result. -/
theorem stringAmount_result_iff_witness :
    (Record.mk (Date 2024 1 2) "Refund".toList 5).StringAmount = none ∧
    (Record.mk (Date 2024 1 2) "Refund".toList 5).String = none := by
  have h := stringAmount_result_iff (Record.mk (Date 2024 1 2) "Refund".toList 5)
  have h1 := (h.2.2.1 (by decide)).2
  refine ⟨h1, ?_⟩
  have h2 := h.2.2.2
  rw [h1] at h2
  cases hs : (Record.mk (Date 2024 1 2) "Refund".toList 5).String with
  | none => rfl
  | some x => rw [hs] at h2; cases h2

end Journal
